import Mathlib

/-!
Verification of the Havk resource-lifecycle and submission-timeline engine.

The definitions below are a shallow embedding of the C++ source:
`DeviceContext::Recycler`, `CommandList::Begin/Submit/~CommandList`,
`Resource::QueuedDeleter::operator()`, `DeviceContext::GarbageCollect`,
`havk::Destroy`, `DescriptorHeap::HandleAllocator::Alloc/Free`,
`DescriptorHeap::GetSampler`, `AccelStructPool::Reserve/Build` and the
`Swapchain` frame-pacing loop.  Native GPU ids (resources, generations,
command lists) are modelled as `Nat` identities; machine counters are `Nat`
(the 64-bit submit counter cannot overflow in any physical execution), except
where wraparound is observable (`uint32_t RefCount` decrements, modelled with
an explicit mod `2 ^ 32`).
-/

set_option maxHeartbeats 1000000
set_option maxRecDepth 100000

namespace Havk

/-- 32-bit unsigned decrement, as in `Recycler_->RefCount--` on a `uint32_t`:
decrementing 0 wraps to `2 ^ 32 - 1`. -/
def dec32 (n : Nat) : Nat := (n + (2 ^ 32 - 1)) % 2 ^ 32

/-- 32-bit unsigned increment, as in `Recycler_->RefCount++`. -/
def inc32 (n : Nat) : Nat := (n + 1) % 2 ^ 32

/-- `DeviceContext::Recycler`: one deletion-queue generation.  `gid` stands for
the heap identity of the node (pointer identity in the source); `entries`,
`flushTimestamp` and `refCount` mirror the fields `Entries`, `FlushTimestamp`
and `RefCount`.  The `Next` pointer is represented by list order: the chain is
a `List Recycler` whose head is `_currRecycler` and whose last element is the
oldest generation. -/
structure Recycler where
  gid : Nat
  entries : List Nat
  flushTimestamp : Nat
  refCount : Nat
deriving DecidableEq, Repr

/-- `CommandList`: `cid` is the resource identity, `recyclerRef` is the
`Recycler_` member (generation the list began recording against), `queued`
records that the owning pointer was released so the object now sits on the
deletion queue awaiting `delete`. -/
structure CmdRec where
  cid : Nat
  recyclerRef : Option Nat
  queued : Bool
deriving DecidableEq, Repr

/-- Observable events of a device-context history: `submitted ts` is the
`Future` timestamp returned by `CommandList::Submit`; `gcFreed rid fts rc cts`
records that `GarbageCollect` ran `delete` on resource `rid` out of a
generation whose `FlushTimestamp` was `fts` and `RefCount` was `rc` while the
queried timeline-semaphore counter read `cts`; `destroyedNow rid` records an
immediate `havk::Destroy` deletion. -/
inductive Event where
  | submitted (ts : Nat)
  | gcFreed (rid : Nat) (fts : Nat) (rc : Nat) (cts : Nat)
  | destroyedNow (rid : Nat)
deriving DecidableEq, Repr

/-- The mutable state owned by `DeviceContext` restricted to the Main queue:
the recycler chain (head = `_currRecycler`), the queue's
`NextSubmitTimestamp`, the current timeline-semaphore counter value
(`completedTs`, advanced asynchronously by the GPU), the live `CommandList`
objects, the live plain resources (id, released-to-queue flag), the pending
`_prologueCmds` and a fresh-id counter, plus the ghost event trace. -/
structure DeviceState where
  chain : List Recycler
  nextGid : Nat
  nextSubmitTimestamp : Nat
  completedTs : Nat
  cmds : List CmdRec
  resources : List (Nat × Bool)
  prologue : Option Nat
  nextId : Nat
  events : List Event
deriving DecidableEq, Repr

/-- Fresh context: one empty current recycler, `NextSubmitTimestamp = 1`
(set at device creation), semaphore counter 0. -/
def initState : DeviceState :=
  { chain := [⟨0, [], 0, 0⟩], nextGid := 1, nextSubmitTimestamp := 1,
    completedTs := 0, cmds := [], resources := [], prologue := none,
    nextId := 0, events := [] }

def findCmd (cmds : List CmdRec) (cid : Nat) : Option CmdRec :=
  cmds.find? (fun c => c.cid == cid)

def setCmdRef (cmds : List CmdRec) (cid : Nat) (r : Option Nat) : List CmdRec :=
  cmds.map fun c => if c.cid == cid then { c with recyclerRef := r } else c

def setCmdQueued (cmds : List CmdRec) (cid : Nat) : List CmdRec :=
  cmds.map fun c => if c.cid == cid then { c with queued := true } else c

def removeCmd (cmds : List CmdRec) (cid : Nat) : List CmdRec :=
  cmds.filter fun c => !(c.cid == cid)

/-- `Recycler_->RefCount--` through a pointer, i.e. on the generation with the
given identity, wherever it sits in the chain. -/
def decRefIn (chain : List Recycler) (gid : Nat) : List Recycler :=
  chain.map fun g => if g.gid == gid then { g with refCount := dec32 g.refCount } else g

/-- `Recycler_->RefCount++` (from `CommandList::Begin`). -/
def incRefIn (chain : List Recycler) (gid : Nat) : List Recycler :=
  chain.map fun g => if g.gid == gid then { g with refCount := inc32 g.refCount } else g

/-- `Recycler_->FlushTimestamp = std::max(Recycler_->FlushTimestamp, finishTS)`. -/
def bumpFlush (chain : List Recycler) (gid : Nat) (ts : Nat) : List Recycler :=
  chain.map fun g =>
    if g.gid == gid then { g with flushTimestamp := max g.flushTimestamp ts } else g

/-- `res->Context->_currRecycler->Entries.push_back(res)`: always appends to the
head (current) generation. -/
def appendEntry (chain : List Recycler) (rid : Nat) : List Recycler :=
  match chain with
  | [] => []
  | g :: rest => { g with entries := g.entries ++ [rid] } :: rest

def headGid (chain : List Recycler) : Nat :=
  match chain with
  | [] => 0
  | g :: _ => g.gid

/-- `DeviceContext::CreateCommandList(QueueDomain::Main, true)`: allocates the
command buffer and runs `Begin()`, which binds `Recycler_` to the current
generation and increments its `RefCount`. -/
def createCmdList (s : DeviceState) : DeviceState :=
  let cid := s.nextId
  let gid := headGid s.chain
  { s with cmds := s.cmds ++ [⟨cid, some gid, false⟩],
           chain := incRefIn s.chain gid,
           nextId := cid + 1 }

/-- A plain resource factory (buffer, pipeline, ...): allocates the native
object and hands out an owning pointer with the queued deleter. -/
def createResource (s : DeviceState) : DeviceState :=
  { s with resources := s.resources ++ [(s.nextId, false)], nextId := s.nextId + 1 }

/-- An image-like resource factory: additionally records the initial layout
barrier on `_prologueCmds`, creating that command list (which `Begin`s, taking
a generation reference) if it does not exist yet. -/
def createImageResource (s : DeviceState) : DeviceState :=
  let s1 := createResource s
  match s1.prologue with
  | some _ => s1
  | none => { createCmdList s1 with prologue := some s1.nextId }

/-- `Resource::QueuedDeleter::operator()` on a `CommandList`: the special case
releases the generation reference immediately (`RefCount--`, null the
`Recycler_` pointer) and then enqueues the object on the current generation. -/
def queuedDeleteCmdList (s : DeviceState) (cid : Nat) : DeviceState :=
  match findCmd s.cmds cid with
  | none => s
  | some c =>
    if c.queued then s
    else
      let s1 : DeviceState :=
        match c.recyclerRef with
        | some gid => { s with chain := decRefIn s.chain gid, cmds := setCmdRef s.cmds cid none }
        | none => s
      { s1 with chain := appendEntry s1.chain cid, cmds := setCmdQueued s1.cmds cid }

/-- Releasing the owning pointer of a live `CommandList` (it goes out of
scope); the private `_prologueCmds` cannot be released by the caller. -/
def releaseCmdList (s : DeviceState) (cid : Nat) : DeviceState :=
  if s.prologue = some cid then s else queuedDeleteCmdList s cid

/-- `Resource::QueuedDeleter::operator()` on a non-`CommandList` resource:
append to the current generation's entries. -/
def releaseResource (s : DeviceState) (rid : Nat) : DeviceState :=
  if (rid, false) ∈ s.resources then
    { s with resources := s.resources.map (fun p => if p.1 == rid then (p.1, true) else p),
             chain := appendEntry s.chain rid }
  else s

/-- `havk::Destroy` on a plain resource: `delete obj.release()` runs the
destructor right away; nothing touches the deletion queue. -/
def destroyResource (s : DeviceState) (rid : Nat) : DeviceState :=
  if (rid, false) ∈ s.resources then
    { s with resources := s.resources.filter (fun p => !(p.1 == rid)),
             events := s.events ++ [.destroyedNow rid] }
  else s

/-- `havk::Destroy` on a `CommandList`: `~CommandList` frees the command
buffer and, if `Recycler_` is still set, decrements that generation's
`RefCount`. -/
def destroyCmdList (s : DeviceState) (cid : Nat) : DeviceState :=
  if s.prologue = some cid then s
  else
    match findCmd s.cmds cid with
    | none => s
    | some c =>
      if c.queued then s
      else
        let chain1 :=
          match c.recyclerRef with
          | some gid => decRefIn s.chain gid
          | none => s.chain
        { s with chain := chain1, cmds := removeCmd s.cmds cid,
                 events := s.events ++ [.destroyedNow cid] }

/-- `CommandList::Submit` (Main queue): reserve
`finishTS = NextSubmitTimestamp++`; merge and discard `_prologueCmds`
(resetting the owning pointer runs the queued deleter on it); raise the owning
generation's `FlushTimestamp`; if the current generation has entries and is
the one this list references, push a fresh empty generation as the new
current; finally `RefCount--` and null `Recycler_`, returning a `Future`
carrying `finishTS`. -/
def submit (s : DeviceState) (cid : Nat) : DeviceState :=
  if s.prologue = some cid then s
  else
    match findCmd s.cmds cid with
    | none => s
    | some c =>
      if c.queued then s
      else
        match c.recyclerRef with
        | none => s
        | some gid =>
          let finishTs := s.nextSubmitTimestamp
          let s1 := { s with nextSubmitTimestamp := finishTs + 1 }
          let s2 :=
            match s1.prologue with
            | some pcid => { queuedDeleteCmdList s1 pcid with prologue := none }
            | none => s1
          let chain1 := bumpFlush s2.chain gid finishTs
          let pushNew : Bool :=
            match chain1 with
            | [] => false
            | h :: _ => h.gid == gid && !(h.entries == [])
          let chain2 :=
            if pushNew then (⟨s2.nextGid, [], 0, 0⟩ : Recycler) :: chain1 else chain1
          { s2 with chain := decRefIn chain2 gid,
                    nextGid := if pushNew then s2.nextGid + 1 else s2.nextGid,
                    cmds := setCmdRef s2.cmds cid none,
                    events := s2.events ++ [.submitted finishTs] }

/-- The GPU advancing the timeline semaphore: the counter is monotone and can
never exceed the highest value any submission will signal
(`NextSubmitTimestamp - 1`). -/
def advanceGpu (s : DeviceState) (t : Nat) : DeviceState :=
  { s with completedTs := max s.completedTs (min t (s.nextSubmitTimestamp - 1)) }

/-- The `while (auto& rc = prev->Next)` loop of `DeviceContext::GarbageCollect`
over the non-current part of the chain (walk order: newest first).  Returns
the generations that stay linked and, for each deleted entry, the triple
(resource id, generation `FlushTimestamp`, generation `RefCount`) in deletion
order.  A generation is flushed exactly when
`queueTs >= rc->FlushTimestamp && rc->RefCount == 0`. -/
def gcWalk (completedTs : Nat) : List Recycler → List Recycler × List (Nat × Nat × Nat)
  | [] => ([], [])
  | g :: rest =>
    let r := gcWalk completedTs rest
    if g.flushTimestamp ≤ completedTs ∧ g.refCount = 0 then
      (r.1, g.entries.map (fun rid => (rid, g.flushTimestamp, g.refCount)) ++ r.2)
    else
      (g :: r.1, r.2)

/-- Effect of `delete res` on the recycler chain: `~CommandList` decrements
`Recycler_->RefCount` when the pointer is still set (never the case for
objects that went through the queued deleter, which nulls it); plain resource
destructors do not touch the chain. -/
def dtorChainEffect (cmds : List CmdRec) (rid : Nat) (chain : List Recycler) : List Recycler :=
  match findCmd cmds rid with
  | some c =>
    match c.recyclerRef with
    | some gid => decRefIn chain gid
    | none => chain
  | none => chain

/-- `DeviceContext::GarbageCollect`: walk the chain after `_currRecycler`,
delete every entry of each generation satisfying the flush condition and
unlink it, keep the rest.  Destructor side effects of the deleted objects are
applied after the walk; the two orders are indistinguishable because an
enqueued `CommandList` has a null `Recycler_` (see `queuedDeleteCmdList`). -/
def garbageCollect (s : DeviceState) : DeviceState :=
  match s.chain with
  | [] => s
  | h :: t =>
    let keep := (gcWalk s.completedTs t).1
    let freed := (gcWalk s.completedTs t).2
    let chain1 := freed.foldl (fun ch p => dtorChainEffect s.cmds p.1 ch) (h :: keep)
    { s with chain := chain1,
             cmds := s.cmds.filter (fun c => !(freed.any (fun p => p.1 == c.cid))),
             resources := s.resources.filter (fun r => !(freed.any (fun p => p.1 == r.1))),
             events := s.events ++ freed.map (fun p => Event.gcFreed p.1 p.2.1 p.2.2 s.completedTs) }

/-- The operations of a single-threaded host interleaved with GPU progress. -/
inductive Op where
  | createResource
  | createImageResource
  | releaseResource (rid : Nat)
  | destroyResource (rid : Nat)
  | createCmdList
  | submit (cid : Nat)
  | releaseCmdList (cid : Nat)
  | destroyCmdList (cid : Nat)
  | advanceGpu (t : Nat)
  | garbageCollect
deriving DecidableEq, Repr

def step (s : DeviceState) : Op → DeviceState
  | .createResource => createResource s
  | .createImageResource => createImageResource s
  | .releaseResource rid => releaseResource s rid
  | .destroyResource rid => destroyResource s rid
  | .createCmdList => createCmdList s
  | .submit cid => submit s cid
  | .releaseCmdList cid => releaseCmdList s cid
  | .destroyCmdList cid => destroyCmdList s cid
  | .advanceGpu t => advanceGpu s t
  | .garbageCollect => garbageCollect s

/-- A device-context history: run a list of operations from a fresh context. -/
def run (ops : List Op) : DeviceState := ops.foldl step initState

/-- The flush condition of `GarbageCollect`:
`queueTs >= rc->FlushTimestamp && rc->RefCount == 0`. -/
def flushReady (completedTs : Nat) (g : Recycler) : Prop :=
  g.flushTimestamp ≤ completedTs ∧ g.refCount = 0

instance (completedTs : Nat) (g : Recycler) : Decidable (flushReady completedTs g) := by
  unfold flushReady; infer_instance

/-- Soundness predicate on events: an entry deleted by `GarbageCollect` came
out of a generation whose `FlushTimestamp` had been reached by the queried
semaphore counter and whose `RefCount` was zero. -/
def eventSound : Event → Prop
  | .gcFreed _ fts rc cts => fts ≤ cts ∧ rc = 0
  | _ => True

/-- No enqueued deletion entry refers to a `CommandList` that still holds a
generation reference — the queued deleter nulls `Recycler_` before pushing the
object onto the queue. -/
def entriesClean (s : DeviceState) : Prop :=
  ∀ g ∈ s.chain, ∀ rid ∈ g.entries, ∀ c ∈ s.cmds, c.cid = rid → c.recyclerRef = none

instance (s : DeviceState) : Decidable (entriesClean s) := by
  unfold entriesClean; infer_instance

/-- The `Future` timestamps handed out by `Submit`, in submission order. -/
def submittedTs (evs : List Event) : List Nat :=
  evs.filterMap fun ev =>
    match ev with
    | .submitted ts => some ts
    | _ => none

/-- Timestamp bookkeeping invariant: the `Future` timestamps handed out so far
are exactly `1, 2, ..., N` and the queue counter stands at `N + 1`. -/
def tsOk (s : DeviceState) : Prop :=
  submittedTs s.events = List.range' 1 (submittedTs s.events).length ∧
  s.nextSubmitTimestamp = (submittedTs s.events).length + 1

/-- `RefCount` of the generation with the given identity, if linked. -/
def refCountOf (chain : List Recycler) (gid : Nat) : Option Nat :=
  (chain.find? (fun g => g.gid == gid)).map Recycler.refCount

/-- The chain with `RefCount` erased: generation identities, deletion entries
and flush timestamps only. -/
def chainShape (chain : List Recycler) : List (Nat × List Nat × Nat) :=
  chain.map fun g => (g.gid, g.entries, g.flushTimestamp)

/-! ### `DescriptorHeap::HandleAllocator` (image-descriptor index pool)

`kMaxImages = 1024 * 64`, so the bitmap `UsedMap` has
`(kMaxImages + 63) / 64 = 1024` words of 64 bits; aggregate-initialized to
`{ 1 }` — word 0 starts as `1` ("Slot 0 is reserved for null handle") and all
other words as `0`.  `NextFreeWordIdxHint = 1`. -/

structure HandleAllocator where
  nextFreeWordIdxHint : Nat
  usedMap : List Nat
deriving DecidableEq, Repr

/-- `~0ull`. -/
def wordAllOnes : Nat := 2 ^ 64 - 1

def initAllocator : HandleAllocator :=
  { nextFreeWordIdxHint := 1, usedMap := 1 :: List.replicate 1023 0 }

/-- Fuel-driven helper for `countrOne`: the first argument only bounds the
recursion depth (the value itself is a sufficient bound), keeping the
definition structurally recursive so it evaluates by kernel reduction. -/
def countrOneAux : Nat → Nat → Nat
  | 0, _ => 0
  | fuel + 1, n => if n % 2 = 1 then countrOneAux fuel (n / 2) + 1 else 0

/-- `std::countr_one`: the number of trailing one bits, i.e. the index of the
lowest zero bit. -/
def countrOne (n : Nat) : Nat := countrOneAux n n

/-- The scan loop of `Alloc`: iteration `i` probes word
`wi = (i + NextFreeWordIdxHint) % std::size(UsedMap)`; the first non-full word
yields index `wi * 64 + countr_one(word)` after setting that bit and updating
the hint.  `fuel` counts the remaining loop iterations. -/
def allocFrom (a : HandleAllocator) (i fuel : Nat) : Option Nat × HandleAllocator :=
  match fuel with
  | 0 => (none, a)
  | fuel' + 1 =>
    let wi := (i + a.nextFreeWordIdxHint) % a.usedMap.length
    let w := a.usedMap.getD wi 0
    if w ≠ wordAllOnes then
      let j := countrOne w
      (some (wi * 64 + j),
        { nextFreeWordIdxHint := wi, usedMap := a.usedMap.set wi (w ||| 2 ^ j) })
    else
      allocFrom a (i + 1) fuel'

/-- `HandleAllocator::Alloc`; `none` models the `~0u` exhaustion sentinel. -/
def HandleAllocator.alloc (a : HandleAllocator) : Option Nat × HandleAllocator :=
  allocFrom a 0 a.usedMap.length

/-- `HandleAllocator::Free`: `UsedMap[addr / 64] &= ~(1ull << (addr & 63))`. -/
def HandleAllocator.free (a : HandleAllocator) (addr : Nat) : HandleAllocator :=
  let w := a.usedMap.getD (addr / 64) 0
  { a with usedMap := a.usedMap.set (addr / 64) (w &&& (wordAllOnes ^^^ 2 ^ (addr % 64))) }

/-! ### `DescriptorHeap::GetSampler` (dynamic-sampler cache) -/

/-- The fields of `VkSamplerCreateInfo` after `sType`/`pNext` — exactly the 64
bytes compared by
`memcmp(&desc.flags, &desc2.flags, sizeof(VkSamplerCreateInfo) - sizeof(VkBaseInStructure))`
(the struct has no interior padding there).  The float fields are represented
by their 32-bit patterns, since `memcmp` compares raw bytes. -/
structure SamplerFields where
  flags : Nat
  magFilter : Nat
  minFilter : Nat
  mipmapMode : Nat
  addressModeU : Nat
  addressModeV : Nat
  addressModeW : Nat
  mipLodBias : Nat
  anisotropyEnable : Nat
  maxAnisotropy : Nat
  compareEnable : Nat
  compareOp : Nat
  minLod : Nat
  maxLod : Nat
  borderColor : Nat
  unnormalizedCoordinates : Nat
deriving DecidableEq, Repr

/-- One structure on the `pNext` extension chain of a sampler description. -/
inductive SamplerExt where
  | reductionMode (mode : Nat)
  | unsupported (sType : Nat)
deriving DecidableEq, Repr

structure SamplerCreateInfo where
  fields : SamplerFields
  pNext : List SamplerExt
deriving DecidableEq, Repr

/-- `VK_SAMPLER_REDUCTION_MODE_WEIGHTED_AVERAGE = 0`. -/
def weightedAverage : Nat := 0

/-- The `for (auto ext = desc.pNext; ...)` scan in `GetSampler`: every
reduction-mode structure overwrites `reduceMode` (so the last one wins); any
other structure leaves it unchanged. -/
def deriveReduceMode (chain : List SamplerExt) : Nat :=
  chain.foldl
    (fun acc e =>
      match e with
      | .reductionMode m => m
      | .unsupported _ => acc)
    weightedAverage

/-- In the else branch for an unrecognized extension the source executes
`HAVK_ASSERT("Unsupported sampler descriptor extension")`: the asserted
expression is the address of a string literal, never null, so the condition is
constantly true and the assertion can never fire. -/
def unsupportedSamplerExtAssertCond : Bool := true

/-- One `_samplerMap` entry: `(VkSamplerCreateInfo, VkSamplerReductionMode,
VkSampler, SamplerHandle)` — the native `VkSampler` is omitted, the handle's
`HeapIndex` is the `Nat`. -/
structure SamplerMapEntry where
  desc : SamplerFields
  reduceMode : Nat
  handle : Nat
deriving DecidableEq, Repr

/-- `DescriptorHeap::GetSampler`: derive the reduction mode from the chain,
linearly search `_samplerMap` comparing the post-`pNext` bytes and the
reduction mode, and on a miss create a sampler under the fresh handle
`_samplerMap.size()` and append it — entries are never removed while the heap
lives. -/
def getSampler (m : List SamplerMapEntry) (d : SamplerCreateInfo) :
    Nat × List SamplerMapEntry :=
  let rm := deriveReduceMode d.pNext
  match m.find? (fun e => e.desc == d.fields && e.reduceMode == rm) with
  | some e => (e.handle, m)
  | none => (m.length, m ++ [⟨d.fields, rm, m.length⟩])

/-- Handles of `_samplerMap` are exactly the insertion positions. -/
def samplerMapWf (m : List SamplerMapEntry) : Prop :=
  m.map SamplerMapEntry.handle = List.range m.length

/-- The extension chain restricted to the structures `GetSampler`
recognizes. -/
def supportedExtsOnly (chain : List SamplerExt) : List SamplerExt :=
  chain.filter fun e =>
    match e with
    | .reductionMode _ => true
    | .unsupported _ => false

/-! ### `AccelStructPool::Reserve` / `Build` -/

inductive VkResult where
  | success
  | errorOutOfDeviceMemory
deriving DecidableEq, Repr

/-- Modelled from the spec: the VMA virtual sub-allocator backing
`RangeAllocator_` (`vmaVirtualAllocate` / `vmaVirtualFree` of the external
vk_mem_alloc library, which is not part of this repository).  Its documented
contract: sub-allocate a range of the fixed-capacity block at the requested
alignment, returning `VK_ERROR_OUT_OF_DEVICE_MEMORY` when nothing fits.
Modelled as first-fit over the gaps of an offset-sorted range list. -/
structure VirtualBlock where
  capacity : Nat
  ranges : List (Nat × Nat)
deriving DecidableEq, Repr

def alignUp (x a : Nat) : Nat := if a = 0 then x else (x + a - 1) / a * a

def findGap (cap size align : Nat) : Nat → List (Nat × Nat) → Option Nat
  | start, [] =>
    let o := alignUp start align
    if o + size ≤ cap then some o else none
  | start, (ro, rs) :: rest =>
    let o := alignUp start align
    if o + size ≤ ro then some o else findGap cap size align (max start (ro + rs)) rest

def insertRange (ranges : List (Nat × Nat)) (r : Nat × Nat) : List (Nat × Nat) :=
  match ranges with
  | [] => [r]
  | (ro, rs) :: rest =>
    if r.1 ≤ ro then r :: (ro, rs) :: rest else (ro, rs) :: insertRange rest r

def vmaVirtualAllocate (blk : VirtualBlock) (size align : Nat) :
    VkResult × Option (Nat × VirtualBlock) :=
  match findGap blk.capacity size align 0 blk.ranges with
  | some o => (.success, some (o, { blk with ranges := insertRange blk.ranges (o, size) }))
  | none => (.errorOutOfDeviceMemory, none)

def vmaVirtualFree (blk : VirtualBlock) (off : Nat) : VirtualBlock :=
  { blk with ranges := blk.ranges.filter fun r => !(r.1 == off) }

/-- One `AccelStructPool::Node`: native handle identity and reserved
(offset, size) range. -/
structure AccelNode where
  handle : Option Nat
  range : Option (Nat × Nat)
deriving DecidableEq, Repr

def emptyNode : AccelNode := ⟨none, none⟩

structure AccelStructPool where
  nodes : List AccelNode
  rangeAllocator : VirtualBlock
  nextHandle : Nat
deriving DecidableEq, Repr

/-- GPU commands recorded on a command list (only the accel-struct build is
relevant here). -/
inductive RecordedCmd where
  | buildAccelStruct (nodeIdx : Nat)
deriving DecidableEq, Repr

/-- Tail of `Reserve` after the resize / early-out logic:
`vmaVirtualAllocate(RangeAllocator_, {size, 256}, ...)`; on failure
`return res` with no exception thrown; on success
`CreateAccelerationStructureKHR` (external driver call, modelled as
succeeding). -/
def reserveAlloc (p : AccelStructPool) (nodeIdx storageSize : Nat) :
    VkResult × AccelStructPool :=
  match vmaVirtualAllocate p.rangeAllocator storageSize 256 with
  | (.success, some (off, blk)) =>
    (.success,
      { p with rangeAllocator := blk,
               nodes := p.nodes.set nodeIdx ⟨some p.nextHandle, some (off, storageSize)⟩,
               nextHandle := p.nextHandle + 1 })
  | (res, _) => (res, p)

/-- `AccelStructPool::Reserve`: grow the node table when `nodeIdx` is out of
range; otherwise, an existing node whose range already has the requested size
is an early `VK_SUCCESS`, and an existing node of a different size is
destroyed and its range freed before reallocating. -/
def reserve (p : AccelStructPool) (nodeIdx storageSize : Nat) :
    VkResult × AccelStructPool :=
  if p.nodes.length ≤ nodeIdx then
    reserveAlloc
      { p with nodes := p.nodes ++ List.replicate (nodeIdx + 1 - p.nodes.length) emptyNode }
      nodeIdx storageSize
  else
    match (p.nodes.getD nodeIdx emptyNode).handle, (p.nodes.getD nodeIdx emptyNode).range with
    | some _, some (off, sz) =>
      if sz = storageSize then (.success, p)
      else
        reserveAlloc
          { p with rangeAllocator := vmaVirtualFree p.rangeAllocator off,
                   nodes := p.nodes.set nodeIdx emptyNode }
          nodeIdx storageSize
    | _, _ => reserveAlloc p nodeIdx storageSize

/-- `AccelStructPool::Build`: `Reserve(nodeIdx, buildDesc.AccelStructSize)`;
`if (res != VK_SUCCESS) return res;` — nothing is recorded in that case —
otherwise record `vkCmdBuildAccelerationStructuresKHR` on the command list
and return `VK_SUCCESS`. -/
def build (p : AccelStructPool) (cmds : List RecordedCmd) (nodeIdx storageSize : Nat) :
    VkResult × AccelStructPool × List RecordedCmd :=
  match reserve p nodeIdx storageSize with
  | (.success, p1) => (.success, p1, cmds ++ [.buildAccelStruct nodeIdx])
  | (res, p1) => (res, p1, cmds)

/-! ### `Swapchain` frame pacing -/

/-- Outcome of one native `vkAcquireNextImageKHR` call, chosen by the
environment.  On `VK_SUBOPTIMAL_KHR` an image *is* acquired and
`_currImageIdx` is written; on `VK_ERROR_OUT_OF_DATE_KHR` it is not. -/
inductive AcquireRes where
  | success (imageIdx : Nat)
  | suboptimal (imageIdx : Nat)
  | outOfDate
deriving DecidableEq, Repr

/-- Outcome of `vkQueuePresentKHR`: success, or a result
(`VK_ERROR_OUT_OF_DATE_KHR` / `VK_SUBOPTIMAL_KHR`) that marks the swapchain
invalid for the next acquire. -/
inductive PresentRes where
  | success
  | invalidating
deriving DecidableEq, Repr

inductive SwcEvent where
  | acquired (slot imageIdx : Nat)
  | blockedOnFence (slot : Nat)
  | presented (imageIdx : Nat)
deriving DecidableEq, Repr

/-- `Swapchain` state: `_currFrameIdx`, `_currImageIdx`, `_invalid`,
whether `Handle != nullptr`, and the per-frame-slot in-flight fences
(`true` = signaled). -/
structure SwcState where
  currFrameIdx : Nat
  currImageIdx : Nat
  invalid : Bool
  initialized : Bool
  fences : List Bool
  events : List SwcEvent
deriving DecidableEq, Repr

/-- `GetNumFramesInFlight()`. -/
def framesInFlight : Nat := 2

def swcInit : SwcState :=
  { currFrameIdx := 0, currImageIdx := 0, invalid := false, initialized := false,
    fences := [], events := [] }

/-- `Swapchain::Initialize`: destroys the previous swapchain if one exists
(`DestroyCurrentSwapchain` resets `_currImageIdx` to 0 — `_currFrameIdx` is
not reset) and creates `framesInFlight` frame slots whose in-flight fences
start signaled (`VK_FENCE_CREATE_SIGNALED_BIT`). -/
def swcInitialize (s : SwcState) : SwcState :=
  { s with initialized := true, invalid := false,
           currImageIdx := if s.initialized then 0 else s.currImageIdx,
           fences := List.replicate framesInFlight true }

/-- `Swapchain::AcquireImage`: re-initialize when uninitialized or invalid;
`vkWaitForFences` on the current frame slot's in-flight fence — if the fence
is not signaled and no GPU progress is possible the host blocks, recorded as
a `blockedOnFence` event; then the native acquire: out-of-date / suboptimal
marks invalid and retries recursively (consuming the next environment
outcome), success writes `_currImageIdx`, begins the slot's command list and
records the UNDEFINED→GENERAL barrier. -/
def acquireGo (s : SwcState) : List AcquireRes → SwcState
  | [] => s
  | r :: rest =>
    let s1 := if !s.initialized || s.invalid then swcInitialize s else s
    if s1.fences.getD s1.currFrameIdx false = false then
      { s1 with events := s1.events ++ [.blockedOnFence s1.currFrameIdx] }
    else
      match r with
      | .outOfDate => acquireGo { s1 with invalid := true } rest
      | .suboptimal k => acquireGo { s1 with invalid := true, currImageIdx := k } rest
      | .success k =>
        { s1 with currImageIdx := k,
                  events := s1.events ++ [.acquired s1.currFrameIdx k] }

/-- `Swapchain::Present`: record the presentation barrier, reset the current
slot's fence and submit the slot's command list (the fence will be signaled by
the GPU once that submission completes), present (a suboptimal/out-of-date
result only marks the swapchain invalid), then
`_currFrameIdx = (_currFrameIdx + 1) % _frameSync.size()`. -/
def swcPresent (s : SwcState) (r : PresentRes) : SwcState :=
  if !s.initialized then s
  else
    let s1 := { s with fences := s.fences.set s.currFrameIdx false }
    let s2 :=
      match r with
      | .invalidating => { s1 with invalid := true }
      | .success => s1
    { s2 with currFrameIdx := (s2.currFrameIdx + 1) % s2.fences.length,
              events := s2.events ++ [.presented s2.currImageIdx] }

/-- The GPU finishing the work guarding a frame slot's in-flight fence. -/
def signalFence (s : SwcState) (slot : Nat) : SwcState :=
  { s with fences := s.fences.set slot true }

inductive SwcOp where
  | acquire (rs : List AcquireRes)
  | present (r : PresentRes)
  | signalFence (slot : Nat)
deriving DecidableEq, Repr

def swcStep (s : SwcState) : SwcOp → SwcState
  | .acquire rs => acquireGo s rs
  | .present r => swcPresent s r
  | .signalFence slot => signalFence s slot

def runSwc (ops : List SwcOp) : SwcState := ops.foldl swcStep swcInit

/-- Number of completed presents in a swapchain history. -/
def countPresents (evs : List SwcEvent) : Nat :=
  (evs.filter fun ev =>
    match ev with
    | .presented _ => true
    | _ => false).length

/-! ## Helper lemmas: event bookkeeping of the deletion-queue machine -/

theorem queuedDeleteCmdList_events (s : DeviceState) (cid : Nat) :
    (queuedDeleteCmdList s cid).events = s.events := by
  unfold queuedDeleteCmdList
  split
  · rfl
  · split
    · rfl
    · split <;> rfl

theorem queuedDeleteCmdList_nextSubmitTimestamp (s : DeviceState) (cid : Nat) :
    (queuedDeleteCmdList s cid).nextSubmitTimestamp = s.nextSubmitTimestamp := by
  unfold queuedDeleteCmdList
  split
  · rfl
  · split
    · rfl
    · split <;> rfl

theorem createImageResource_events (s : DeviceState) :
    (createImageResource s).events = s.events := by
  simp only [createImageResource, createResource, createCmdList]
  split <;> rfl

theorem createImageResource_nextSubmitTimestamp (s : DeviceState) :
    (createImageResource s).nextSubmitTimestamp = s.nextSubmitTimestamp := by
  simp only [createImageResource, createResource, createCmdList]
  split <;> rfl

theorem releaseResource_events (s : DeviceState) (rid : Nat) :
    (releaseResource s rid).events = s.events := by
  unfold releaseResource
  split <;> rfl

theorem releaseCmdList_events (s : DeviceState) (cid : Nat) :
    (releaseCmdList s cid).events = s.events := by
  unfold releaseCmdList
  split
  · rfl
  · exact queuedDeleteCmdList_events s cid

theorem destroyResource_events (s : DeviceState) (rid : Nat) :
    (destroyResource s rid).events = s.events ∨
    (destroyResource s rid).events = s.events ++ [Event.destroyedNow rid] := by
  unfold destroyResource
  split
  · exact Or.inr rfl
  · exact Or.inl rfl

theorem destroyCmdList_events (s : DeviceState) (cid : Nat) :
    (destroyCmdList s cid).events = s.events ∨
    (destroyCmdList s cid).events = s.events ++ [Event.destroyedNow cid] := by
  unfold destroyCmdList
  split
  · exact Or.inl rfl
  · split
    · exact Or.inl rfl
    · split
      · exact Or.inl rfl
      · exact Or.inr rfl

theorem submit_events (s : DeviceState) (cid : Nat) :
    (submit s cid).events = s.events ∨
    (submit s cid).events = s.events ++ [Event.submitted s.nextSubmitTimestamp] := by
  unfold submit
  split
  · exact Or.inl rfl
  · split
    · exact Or.inl rfl
    · split
      · exact Or.inl rfl
      · split
        · exact Or.inl rfl
        · refine Or.inr ?_
          cases hpro : s.prologue <;> simp [hpro, queuedDeleteCmdList_events]

theorem garbageCollect_events (s : DeviceState) :
    (garbageCollect s).events = s.events ++
      ((gcWalk s.completedTs (s.chain.drop 1)).2.map
        (fun p => Event.gcFreed p.1 p.2.1 p.2.2 s.completedTs)) := by
  unfold garbageCollect
  split
  case h_1 heq => simp [heq, gcWalk]
  case h_2 h t heq => simp [heq]

/-- Every triple deleted by the GC walk came from a generation satisfying the
flush condition. -/
theorem gcWalk_sound (cts : Nat) (l : List Recycler) :
    ∀ p ∈ (gcWalk cts l).2, p.2.1 ≤ cts ∧ p.2.2 = 0 := by
  induction l with
  | nil =>
    intro p hp
    simp [gcWalk] at hp
  | cons g rest ih =>
    intro p hp
    simp only [gcWalk] at hp
    split at hp
    case isTrue h =>
      rcases List.mem_append.mp hp with hmem | hmem
      · rcases List.mem_map.mp hmem with ⟨rid, _, rfl⟩
        exact ⟨h.1, h.2⟩
      · exact ih p hmem
    case isFalse h => exact ih p hp

theorem step_events_sound (s : DeviceState) (op : Op) :
    ∀ ev ∈ (step s op).events, ev ∈ s.events ∨ eventSound ev := by
  intro ev hev
  cases op with
  | createResource => exact Or.inl hev
  | createImageResource =>
    simp only [step, createImageResource_events] at hev
    exact Or.inl hev
  | releaseResource rid =>
    simp only [step, releaseResource_events] at hev
    exact Or.inl hev
  | destroyResource rid =>
    rcases destroyResource_events s rid with h | h <;> simp only [step] at hev <;> rw [h] at hev
    · exact Or.inl hev
    · rcases List.mem_append.mp hev with h2 | h2
      · exact Or.inl h2
      · simp at h2
        subst h2
        exact Or.inr trivial
  | createCmdList => exact Or.inl hev
  | submit cid =>
    rcases submit_events s cid with h | h <;> simp only [step] at hev <;> rw [h] at hev
    · exact Or.inl hev
    · rcases List.mem_append.mp hev with h2 | h2
      · exact Or.inl h2
      · simp at h2
        subst h2
        exact Or.inr trivial
  | releaseCmdList cid =>
    simp only [step, releaseCmdList_events] at hev
    exact Or.inl hev
  | destroyCmdList cid =>
    rcases destroyCmdList_events s cid with h | h <;> simp only [step] at hev <;> rw [h] at hev
    · exact Or.inl hev
    · rcases List.mem_append.mp hev with h2 | h2
      · exact Or.inl h2
      · simp at h2
        subst h2
        exact Or.inr trivial
  | advanceGpu t => exact Or.inl hev
  | garbageCollect =>
    simp only [step, garbageCollect_events] at hev
    rcases List.mem_append.mp hev with h2 | h2
    · exact Or.inl h2
    · rcases List.mem_map.mp h2 with ⟨p, hp, rfl⟩
      exact Or.inr (gcWalk_sound s.completedTs (s.chain.drop 1) p hp)

theorem run_events_sound (ops : List Op) :
    ∀ ev ∈ (run ops).events, eventSound ev := by
  have main : ∀ (l : List Op) (s : DeviceState), (∀ ev ∈ s.events, eventSound ev) →
      ∀ ev ∈ (l.foldl step s).events, eventSound ev := by
    intro l
    induction l with
    | nil => intro s h; exact h
    | cons op rest ih =>
      intro s h
      refine ih (step s op) ?_
      intro ev hev
      rcases step_events_sound s op ev hev with h2 | h2
      · exact h ev h2
      · exact h2
  intro ev hev
  have hi : ∀ ev ∈ initState.events, eventSound ev := by
    intro ev hev
    simp [initState] at hev
  exact main ops initState hi ev hev

/-! ## C1: no premature free -/

/-- C1: over every operation history (creation, queued release, submits,
garbage collection) interleaved with arbitrary advances of the queue's
completed timestamp, `GarbageCollect` deletes a queued entry only out of a
generation whose `FlushTimestamp` has been reached by the completed timestamp
and whose `RefCount` is zero; hence a released resource's native object is
never destroyed before the completed timestamp reaches the `FlushTimestamp`
recorded for its generation by its generation's last submission. -/
theorem gc_never_frees_before_flush_timestamp (ops : List Op) (rid fts rc cts : Nat)
    (h : Event.gcFreed rid fts rc cts ∈ (run ops).events) :
    fts ≤ cts ∧ rc = 0 :=
  run_events_sound ops _ h

/-- Witness: create and release a buffer, submit once, let the GPU reach
timestamp 1, collect: the buffer is freed with `FlushTimestamp = 1` at
completed timestamp 1. -/
theorem gc_never_frees_before_flush_timestamp_witness :
    Event.gcFreed 0 1 0 1 ∈
      (run [Op.createResource, Op.releaseResource 0, Op.createCmdList, Op.submit 1,
            Op.advanceGpu 1, Op.garbageCollect]).events ∧ 1 ≤ 1 ∧ 0 = 0 :=
  ⟨by decide,
   gc_never_frees_before_flush_timestamp
     [Op.createResource, Op.releaseResource 0, Op.createCmdList, Op.submit 1,
      Op.advanceGpu 1, Op.garbageCollect] 0 1 0 1 (by decide)⟩

/-! ## C3: monotonic contiguous submission timestamps -/

theorem submittedTs_append (a b : List Event) :
    submittedTs (a ++ b) = submittedTs a ++ submittedTs b := by
  simp [submittedTs]

theorem submittedTs_gcFreed_map (fr : List (Nat × Nat × Nat)) (c : Nat) :
    submittedTs (fr.map (fun p => Event.gcFreed p.1 p.2.1 p.2.2 c)) = [] := by
  induction fr with
  | nil => rfl
  | cons p rest ih =>
    simp only [List.map_cons, submittedTs, List.filterMap_cons] at ih ⊢
    exact ih

theorem releaseResource_nextSubmitTimestamp (s : DeviceState) (rid : Nat) :
    (releaseResource s rid).nextSubmitTimestamp = s.nextSubmitTimestamp := by
  unfold releaseResource
  split <;> rfl

theorem destroyResource_shape (s : DeviceState) (rid : Nat) :
    (destroyResource s rid).nextSubmitTimestamp = s.nextSubmitTimestamp ∧
    ((destroyResource s rid).events = s.events ∨
     (destroyResource s rid).events = s.events ++ [Event.destroyedNow rid]) := by
  unfold destroyResource
  split
  · exact ⟨rfl, Or.inr rfl⟩
  · exact ⟨rfl, Or.inl rfl⟩

theorem destroyCmdList_shape (s : DeviceState) (cid : Nat) :
    (destroyCmdList s cid).nextSubmitTimestamp = s.nextSubmitTimestamp ∧
    ((destroyCmdList s cid).events = s.events ∨
     (destroyCmdList s cid).events = s.events ++ [Event.destroyedNow cid]) := by
  unfold destroyCmdList
  split
  · exact ⟨rfl, Or.inl rfl⟩
  · split
    · exact ⟨rfl, Or.inl rfl⟩
    · split
      · exact ⟨rfl, Or.inl rfl⟩
      · exact ⟨rfl, Or.inr rfl⟩

theorem releaseCmdList_nextSubmitTimestamp (s : DeviceState) (cid : Nat) :
    (releaseCmdList s cid).nextSubmitTimestamp = s.nextSubmitTimestamp := by
  unfold releaseCmdList
  split
  · rfl
  · exact queuedDeleteCmdList_nextSubmitTimestamp s cid

theorem garbageCollect_nextSubmitTimestamp (s : DeviceState) :
    (garbageCollect s).nextSubmitTimestamp = s.nextSubmitTimestamp := by
  unfold garbageCollect
  split <;> rfl

/-- `Submit` either rejects its input unchanged (invalid command list) or
hands out exactly the current `NextSubmitTimestamp` and post-increments it. -/
theorem submit_shape (s : DeviceState) (cid : Nat) :
    submit s cid = s ∨
    ((submit s cid).events = s.events ++ [Event.submitted s.nextSubmitTimestamp] ∧
     (submit s cid).nextSubmitTimestamp = s.nextSubmitTimestamp + 1) := by
  unfold submit
  split
  · exact Or.inl rfl
  · split
    · exact Or.inl rfl
    · split
      · exact Or.inl rfl
      · split
        · exact Or.inl rfl
        · refine Or.inr ?_
          cases hpro : s.prologue <;>
            exact ⟨by simp [hpro, queuedDeleteCmdList_events],
                   by simp [hpro, queuedDeleteCmdList_nextSubmitTimestamp]⟩

theorem submittedTs_single_submitted (k : Nat) :
    submittedTs [Event.submitted k] = [k] := rfl

theorem tsOk_extend (L : List Nat) (h1 : L = List.range' 1 L.length) :
    L ++ [L.length + 1] = List.range' 1 (L.length + 1) := by
  rw [List.range'_concat, ← h1]
  congr 2
  omega

theorem step_tsOk (s : DeviceState) (op : Op) (h : tsOk s) : tsOk (step s op) := by
  obtain ⟨h1, h2⟩ := h
  cases op with
  | createResource => exact ⟨h1, h2⟩
  | createImageResource =>
    refine ⟨?_, ?_⟩ <;>
      simp only [step, createImageResource_events, createImageResource_nextSubmitTimestamp]
    · exact h1
    · exact h2
  | releaseResource rid =>
    refine ⟨?_, ?_⟩ <;>
      simp only [step, releaseResource_events, releaseResource_nextSubmitTimestamp]
    · exact h1
    · exact h2
  | destroyResource rid =>
    obtain ⟨hc, he⟩ := destroyResource_shape s rid
    rcases he with he | he <;>
      refine ⟨?_, ?_⟩ <;> simp only [step, hc, he, submittedTs_append]
    · exact h1
    · exact h2
    · simpa [submittedTs] using h1
    · simpa [submittedTs] using h2
  | createCmdList => exact ⟨h1, h2⟩
  | submit cid =>
    rcases submit_shape s cid with he | ⟨he, hc⟩
    · show tsOk (submit s cid)
      rw [he]
      exact ⟨h1, h2⟩
    · show tsOk (submit s cid)
      constructor
      · rw [he, submittedTs_append, submittedTs_single_submitted, h2, List.length_append,
          List.length_singleton]
        exact tsOk_extend _ h1
      · rw [hc, he, submittedTs_append, submittedTs_single_submitted, h2, List.length_append,
          List.length_singleton]
  | releaseCmdList cid =>
    refine ⟨?_, ?_⟩ <;>
      simp only [step, releaseCmdList_events, releaseCmdList_nextSubmitTimestamp]
    · exact h1
    · exact h2
  | destroyCmdList cid =>
    obtain ⟨hc, he⟩ := destroyCmdList_shape s cid
    rcases he with he | he <;>
      refine ⟨?_, ?_⟩ <;> simp only [step, hc, he, submittedTs_append]
    · exact h1
    · exact h2
    · simpa [submittedTs] using h1
    · simpa [submittedTs] using h2
  | advanceGpu t => exact ⟨h1, h2⟩
  | garbageCollect =>
    refine ⟨?_, ?_⟩ <;>
      simp only [step, garbageCollect_events, garbageCollect_nextSubmitTimestamp,
        submittedTs_append, submittedTs_gcFreed_map, List.append_nil]
    · exact h1
    · exact h2

theorem run_tsOk (ops : List Op) : tsOk (run ops) := by
  have main : ∀ (l : List Op) (s : DeviceState), tsOk s → tsOk (l.foldl step s) := by
    intro l
    induction l with
    | nil => intro s h; exact h
    | cons op rest ih => intro s h; exact ih _ (step_tsOk s op h)
  exact main ops initState ⟨rfl, rfl⟩

theorem step_counter_mono (s : DeviceState) (op : Op) :
    s.nextSubmitTimestamp ≤ (step s op).nextSubmitTimestamp := by
  cases op with
  | createResource => exact Nat.le_refl _
  | createImageResource =>
    simp only [step, createImageResource_nextSubmitTimestamp]
    exact Nat.le_refl _
  | releaseResource rid =>
    simp only [step, releaseResource_nextSubmitTimestamp]
    exact Nat.le_refl _
  | destroyResource rid =>
    simp only [step, (destroyResource_shape s rid).1]
    exact Nat.le_refl _
  | createCmdList => exact Nat.le_refl _
  | submit cid =>
    rcases submit_shape s cid with he | ⟨_, hc⟩
    · simp only [step, he]
      exact Nat.le_refl _
    · simp only [step, hc]
      exact Nat.le_succ _
  | releaseCmdList cid =>
    simp only [step, releaseCmdList_nextSubmitTimestamp]
    exact Nat.le_refl _
  | destroyCmdList cid =>
    simp only [step, (destroyCmdList_shape s cid).1]
    exact Nat.le_refl _
  | advanceGpu t => exact Nat.le_refl _
  | garbageCollect =>
    simp only [step, garbageCollect_nextSubmitTimestamp]
    exact Nat.le_refl _

theorem foldl_counter_mono (more : List Op) :
    ∀ s : DeviceState, s.nextSubmitTimestamp ≤ (more.foldl step s).nextSubmitTimestamp := by
  induction more with
  | nil => intro s; exact Nat.le_refl _
  | cons op rest ih =>
    intro s
    exact Nat.le_trans (step_counter_mono s op) (ih (step s op))

/-- C3: the `Future` timestamps returned over any operation history are
exactly `1, 2, ..., N` in submission order with no gaps or repeats;
`NextSubmitTimestamp` stands at `N + 1` afterwards and never decreases under
any further operations (it is never reset). -/
theorem futures_timestamps_one_to_n (ops more : List Op) :
    submittedTs (run ops).events = List.range' 1 (submittedTs (run ops).events).length ∧
    (run ops).nextSubmitTimestamp = (submittedTs (run ops).events).length + 1 ∧
    (run ops).nextSubmitTimestamp ≤ (run (ops ++ more)).nextSubmitTimestamp := by
  obtain ⟨h1, h2⟩ := run_tsOk ops
  refine ⟨h1, h2, ?_⟩
  rw [run, run, List.foldl_append]
  exact foldl_counter_mono more _

/-! ## C2: the GC walk over the chain -/

theorem gcWalk_keep (cts : Nat) (l : List Recycler) :
    (gcWalk cts l).1 = l.filter (fun g => !(decide (flushReady cts g))) := by
  induction l with
  | nil => rfl
  | cons g rest ih =>
    by_cases h : flushReady cts g
    · have hcond : g.flushTimestamp ≤ cts ∧ g.refCount = 0 := h
      simp only [gcWalk, if_pos hcond, List.filter_cons, ih]
      simp [h]
    · have hcond : ¬(g.flushTimestamp ≤ cts ∧ g.refCount = 0) := h
      simp only [gcWalk, if_neg hcond, List.filter_cons, ih]
      simp [h]

theorem gcWalk_freed (cts : Nat) (l : List Recycler) :
    (gcWalk cts l).2 =
      (l.filter (fun g => decide (flushReady cts g))).flatMap
        (fun g => g.entries.map (fun rid => (rid, g.flushTimestamp, g.refCount))) := by
  induction l with
  | nil => rfl
  | cons g rest ih =>
    by_cases h : flushReady cts g
    · have hcond : g.flushTimestamp ≤ cts ∧ g.refCount = 0 := h
      simp only [gcWalk, if_pos hcond, List.filter_cons, ih]
      simp [h]
    · have hcond : ¬(g.flushTimestamp ≤ cts ∧ g.refCount = 0) := h
      simp only [gcWalk, if_neg hcond, List.filter_cons, ih]
      simp [h]

theorem gcWalk_freed_from_entries (cts : Nat) (l : List Recycler) :
    ∀ p ∈ (gcWalk cts l).2, ∃ g ∈ l, p.1 ∈ g.entries := by
  induction l with
  | nil =>
    intro p hp
    simp [gcWalk] at hp
  | cons g rest ih =>
    intro p hp
    simp only [gcWalk] at hp
    split at hp
    case isTrue h =>
      rcases List.mem_append.mp hp with hmem | hmem
      · rcases List.mem_map.mp hmem with ⟨rid, hrid, rfl⟩
        exact ⟨g, List.mem_cons_self g rest, hrid⟩
      · obtain ⟨g2, hg2, hin⟩ := ih p hmem
        exact ⟨g2, List.mem_cons_of_mem g hg2, hin⟩
    case isFalse h =>
      obtain ⟨g2, hg2, hin⟩ := ih p hp
      exact ⟨g2, List.mem_cons_of_mem g hg2, hin⟩

/-- Under the cleanliness invariant, the destructor a GC `delete` runs on an
enqueued object never touches any generation's `RefCount`. -/
theorem dtorChainEffect_id_of_clean (s : DeviceState) (hclean : entriesClean s)
    (rid : Nat) (hg : ∃ g ∈ s.chain, rid ∈ g.entries) :
    ∀ chain, dtorChainEffect s.cmds rid chain = chain := by
  intro chain
  unfold dtorChainEffect
  cases hf : findCmd s.cmds rid with
  | none => rfl
  | some c =>
    obtain ⟨g, hgmem, hrid⟩ := hg
    have hcmem : c ∈ s.cmds := List.mem_of_find?_eq_some hf
    have hcid : c.cid = rid := by
      have h2 : List.find? (fun x => x.cid == rid) s.cmds = some c := hf
      have h3 := List.find?_some h2
      simp at h3
      exact h3
    have hnone : c.recyclerRef = none := hclean g hgmem rid hrid c hcmem hcid
    simp [hnone]

theorem foldl_fixed_of_forall_id {α β : Type} (l : List β) (f : α → β → α)
    (h : ∀ b ∈ l, ∀ a, f a b = a) : ∀ a, l.foldl f a = a := by
  induction l with
  | nil => intro a; rfl
  | cons b rest ih =>
    intro a
    rw [List.foldl_cons, h b (List.mem_cons_self b rest) a]
    exact ih (fun x hx a2 => h x (List.mem_cons_of_mem b hx) a2) a

/-- C2 counterexample: after this concrete history, `GarbageCollect` has freed
the newer generation (its entry, resource 4, flushed at timestamp 2) while the
older generation (gid 0, `FlushTimestamp` 1, `RefCount` 1, still holding
entry 1) remains linked: the walk did not flush from the tail inward, and a
generation was freed while an older one remained unflushed. -/
theorem gc_not_tail_only_counterexample :
    Event.gcFreed 4 2 0 2 ∈
      (run [Op.createCmdList, Op.createResource, Op.releaseResource 1, Op.createCmdList,
            Op.submit 2, Op.createCmdList, Op.createResource, Op.releaseResource 4,
            Op.submit 3, Op.advanceGpu 2, Op.garbageCollect]).events ∧
    (⟨0, [1], 1, 1⟩ : Recycler) ∈
      (run [Op.createCmdList, Op.createResource, Op.releaseResource 1, Op.createCmdList,
            Op.submit 2, Op.createCmdList, Op.createResource, Op.releaseResource 4,
            Op.submit 3, Op.advanceGpu 2, Op.garbageCollect]).chain := by
  decide

/-- C2 (amended): `GarbageCollect` walks every generation after the current
one, from newest to oldest; it frees and unlinks exactly those generations
that satisfy the flush condition (deleting their entries in walk order) and
keeps the others in order — it does not stop at the first unready generation,
so a newer generation can be freed while an older, unready one stays linked. -/
theorem gc_filters_ready_generations (s : DeviceState) (g0 : Recycler) (t : List Recycler)
    (hchain : s.chain = g0 :: t) (hclean : entriesClean s) :
    (garbageCollect s).chain =
      g0 :: t.filter (fun g => !(decide (flushReady s.completedTs g))) ∧
    (garbageCollect s).events = s.events ++
      ((t.filter (fun g => decide (flushReady s.completedTs g))).flatMap
        (fun g => g.entries.map
          (fun rid => Event.gcFreed rid g.flushTimestamp g.refCount s.completedTs))) := by
  have hid : ∀ p ∈ (gcWalk s.completedTs t).2, ∀ ch,
      dtorChainEffect s.cmds p.1 ch = ch := by
    intro p hp
    refine dtorChainEffect_id_of_clean s hclean p.1 ?_
    obtain ⟨g, hg, hin⟩ := gcWalk_freed_from_entries s.completedTs t p hp
    exact ⟨g, by rw [hchain]; exact List.mem_cons_of_mem g0 hg, hin⟩
  constructor
  · simp only [garbageCollect, hchain]
    rw [foldl_fixed_of_forall_id _ _ (fun p hp a => hid p hp a)]
    rw [gcWalk_keep]
  · simp only [garbageCollect, hchain]
    rw [gcWalk_freed, List.map_flatMap]
    congr 1
    refine List.flatMap_congr ?_
    intro g hg
    rw [List.map_map]
    rfl

/-- Witness for `gc_filters_ready_generations` at the concrete pre-collection
state of the counterexample history: the ready newer generation is flushed,
the unready older one is kept. -/
theorem gc_filters_ready_generations_witness :
    (garbageCollect (run [Op.createCmdList, Op.createResource, Op.releaseResource 1,
        Op.createCmdList, Op.submit 2, Op.createCmdList, Op.createResource,
        Op.releaseResource 4, Op.submit 3, Op.advanceGpu 2])).chain =
      (⟨2, [], 0, 0⟩ : Recycler) ::
        [(⟨1, [4], 2, 0⟩ : Recycler), ⟨0, [1], 1, 1⟩].filter
          (fun g => !(decide (flushReady (run [Op.createCmdList, Op.createResource,
            Op.releaseResource 1, Op.createCmdList, Op.submit 2, Op.createCmdList,
            Op.createResource, Op.releaseResource 4, Op.submit 3,
            Op.advanceGpu 2]).completedTs g))) ∧
    (garbageCollect (run [Op.createCmdList, Op.createResource, Op.releaseResource 1,
        Op.createCmdList, Op.submit 2, Op.createCmdList, Op.createResource,
        Op.releaseResource 4, Op.submit 3, Op.advanceGpu 2])).events =
      (run [Op.createCmdList, Op.createResource, Op.releaseResource 1,
        Op.createCmdList, Op.submit 2, Op.createCmdList, Op.createResource,
        Op.releaseResource 4, Op.submit 3, Op.advanceGpu 2]).events ++
      (([(⟨1, [4], 2, 0⟩ : Recycler), ⟨0, [1], 1, 1⟩].filter
          (fun g => decide (flushReady (run [Op.createCmdList, Op.createResource,
            Op.releaseResource 1, Op.createCmdList, Op.submit 2, Op.createCmdList,
            Op.createResource, Op.releaseResource 4, Op.submit 3,
            Op.advanceGpu 2]).completedTs g))).flatMap
        (fun g => g.entries.map
          (fun rid => Event.gcFreed rid g.flushTimestamp g.refCount
            (run [Op.createCmdList, Op.createResource, Op.releaseResource 1,
              Op.createCmdList, Op.submit 2, Op.createCmdList, Op.createResource,
              Op.releaseResource 4, Op.submit 3, Op.advanceGpu 2]).completedTs))) :=
  gc_filters_ready_generations _ ⟨2, [], 0, 0⟩ [⟨1, [4], 2, 0⟩, ⟨0, [1], 1, 1⟩]
    (by decide) (by decide)

/-! ## C4: a never-submitted CommandList releases its generation exactly once -/

theorem findCmd_map (cmds : List CmdRec) (cid : Nat) (f : CmdRec → CmdRec)
    (hf : ∀ c, (f c).cid = c.cid) :
    findCmd (cmds.map f) cid = (findCmd cmds cid).map f := by
  induction cmds with
  | nil => rfl
  | cons c rest ih =>
    unfold findCmd at ih ⊢
    rw [List.map_cons]
    by_cases h : (c.cid == cid) = true
    · simp [List.find?, hf c, h]
    · have hb : (c.cid == cid) = false := by simpa using h
      simp only [List.find?, hf c, hb, cond_false]
      exact ih

theorem refCountOf_decRefIn (chain : List Recycler) (gid : Nat) :
    refCountOf (decRefIn chain gid) gid = (refCountOf chain gid).map dec32 := by
  induction chain with
  | nil => rfl
  | cons g rest ih =>
    unfold refCountOf decRefIn at ih ⊢
    rw [List.map_cons]
    by_cases h : (g.gid == gid) = true
    · simp [List.find?, h]
    · have hb : (g.gid == gid) = false := by simpa using h
      rw [if_neg h]
      simp only [List.find?, hb]
      exact ih

theorem refCountOf_appendEntry (chain : List Recycler) (rid gid : Nat) :
    refCountOf (appendEntry chain rid) gid = refCountOf chain gid := by
  cases chain with
  | nil => rfl
  | cons g rest =>
    unfold refCountOf appendEntry
    by_cases h : (g.gid == gid) = true
    · simp [List.find?, h]
    · have hb : (g.gid == gid) = false := by simpa using h
      simp only [List.find?, hb, cond_false]

theorem dec32_of_pos (rc : Nat) (h1 : 1 ≤ rc) (h2 : rc < 2 ^ 32) : dec32 rc = rc - 1 := by
  unfold dec32
  have hpow : (2 : Nat) ^ 32 = 4294967296 := by norm_num
  rw [hpow] at h2 ⊢
  omega

/-- C4: a `CommandList` that `Begin`-ed (referencing generation `gid`) but is
destroyed without ever submitting decrements that generation's `RefCount`
exactly once on either destruction path: immediate deletion through the
destructor (`havk::Destroy`), or the queued deleter — which also nulls the
`Recycler_` pointer, so when `GarbageCollect` later `delete`s the object, the
destructor run decrements nothing further. -/
theorem cmdlist_refcount_released_once (s : DeviceState) (cid gid rc : Nat)
    (hc : findCmd s.cmds cid = some ⟨cid, some gid, false⟩)
    (hp : ¬ s.prologue = some cid)
    (hrc : refCountOf s.chain gid = some rc)
    (h1 : 1 ≤ rc) (h2 : rc < 2 ^ 32) :
    refCountOf (destroyCmdList s cid).chain gid = some (rc - 1) ∧
    refCountOf (releaseCmdList s cid).chain gid = some (rc - 1) ∧
    findCmd (releaseCmdList s cid).cmds cid = some ⟨cid, none, true⟩ ∧
    (∀ chain, dtorChainEffect (releaseCmdList s cid).cmds cid chain = chain) := by
  have hqd : queuedDeleteCmdList s cid =
      { s with chain := appendEntry (decRefIn s.chain gid) cid,
               cmds := setCmdQueued (setCmdRef s.cmds cid none) cid } := by
    unfold queuedDeleteCmdList
    rw [hc]
    rfl
  have hrel : releaseCmdList s cid =
      { s with chain := appendEntry (decRefIn s.chain gid) cid,
               cmds := setCmdQueued (setCmdRef s.cmds cid none) cid } := by
    unfold releaseCmdList
    rw [if_neg hp]
    exact hqd
  have hdes : destroyCmdList s cid =
      { s with chain := decRefIn s.chain gid, cmds := removeCmd s.cmds cid,
               events := s.events ++ [Event.destroyedNow cid] } := by
    unfold destroyCmdList
    rw [if_neg hp, hc]
    rfl
  have hdec : refCountOf (decRefIn s.chain gid) gid = some (rc - 1) := by
    rw [refCountOf_decRefIn, hrc]
    simp [dec32_of_pos rc h1 h2]
  have hfindrel : findCmd (releaseCmdList s cid).cmds cid = some ⟨cid, none, true⟩ := by
    rw [hrel]
    show findCmd (setCmdQueued (setCmdRef s.cmds cid none) cid) cid = some ⟨cid, none, true⟩
    unfold setCmdQueued setCmdRef
    rw [findCmd_map _ _ _ (by intro c; by_cases h : (c.cid == cid) = true <;> simp [h]),
        findCmd_map _ _ _ (by intro c; by_cases h : (c.cid == cid) = true <;> simp [h]), hc]
    simp
  refine ⟨?_, ?_, hfindrel, ?_⟩
  · rw [hdes]
    exact hdec
  · rw [hrel]
    show refCountOf (appendEntry (decRefIn s.chain gid) cid) gid = some (rc - 1)
    rw [refCountOf_appendEntry]
    exact hdec
  · intro chain
    unfold dtorChainEffect
    rw [hfindrel]

/-- Witness for `cmdlist_refcount_released_once`: a fresh context with one
recording `CommandList` (generation 0 has `RefCount` 1). -/
theorem cmdlist_refcount_released_once_witness :
    refCountOf (destroyCmdList (run [Op.createCmdList]) 0).chain 0 = some 0 ∧
    refCountOf (releaseCmdList (run [Op.createCmdList]) 0).chain 0 = some 0 ∧
    findCmd (releaseCmdList (run [Op.createCmdList]) 0).cmds 0 =
      some ⟨0, none, true⟩ ∧
    dtorChainEffect (releaseCmdList (run [Op.createCmdList]) 0).cmds 0 [] = [] := by
  obtain ⟨a, b, c, d⟩ := cmdlist_refcount_released_once (run [Op.createCmdList]) 0 0 1
    (by decide) (by decide) (by decide) (by decide) (by decide)
  exact ⟨a, b, c, d []⟩

/-! ## C9: `havk::Destroy` and the deletion queue -/

/-- C9 counterexample: `havk::Destroy` on a `CommandList` that began recording
does change the deletion-queue chain — the referenced generation's `RefCount`
is decremented by the destructor. -/
theorem destroy_recording_cmdlist_changes_chain :
    (destroyCmdList (run [Op.createCmdList]) 0).chain ≠
      (run [Op.createCmdList]).chain := by
  decide

theorem chainShape_decRefIn (chain : List Recycler) (gid : Nat) :
    chainShape (decRefIn chain gid) = chainShape chain := by
  unfold chainShape decRefIn
  rw [List.map_map]
  refine List.map_congr_left ?_
  intro g _
  by_cases h : g.gid = gid <;> simp [h]

/-- C9 (amended): `havk::Destroy` deletes the native object immediately and
synchronously, appending no entry to any deletion-queue generation: the chain
of generations — identities, entries and flush timestamps — is unchanged.
The single exception is the reference count: destroying a `CommandList` that
still holds a generation reference decrements that generation's `RefCount`
(releasing the reference); destroying any other resource leaves the chain
entirely untouched. -/
theorem destroy_bypasses_deletion_queue (s : DeviceState) (rid cid : Nat)
    (hr : (rid, false) ∈ s.resources)
    (hc : ∃ c, findCmd s.cmds cid = some c ∧ c.queued = false)
    (hp : ¬ s.prologue = some cid) :
    (destroyResource s rid).chain = s.chain ∧
    (destroyResource s rid).events = s.events ++ [Event.destroyedNow rid] ∧
    chainShape (destroyCmdList s cid).chain = chainShape s.chain ∧
    (destroyCmdList s cid).events = s.events ++ [Event.destroyedNow cid] := by
  obtain ⟨c, hfind, hq⟩ := hc
  have hdr : destroyResource s rid =
      { s with resources := s.resources.filter (fun p => !(p.1 == rid)),
               events := s.events ++ [Event.destroyedNow rid] } := by
    unfold destroyResource
    rw [if_pos hr]
  have hdc : destroyCmdList s cid =
      { s with chain :=
                 match c.recyclerRef with
                 | some gid => decRefIn s.chain gid
                 | none => s.chain,
               cmds := removeCmd s.cmds cid,
               events := s.events ++ [Event.destroyedNow cid] } := by
    unfold destroyCmdList
    rw [if_neg hp, hfind]
    simp [hq]
  refine ⟨by rw [hdr], by rw [hdr], ?_, by rw [hdc]⟩
  rw [hdc]
  show chainShape (match c.recyclerRef with
    | some gid => decRefIn s.chain gid
    | none => s.chain) = chainShape s.chain
  cases c.recyclerRef with
  | some gid => exact chainShape_decRefIn s.chain gid
  | none => rfl

/-- Witness for `destroy_bypasses_deletion_queue`: a context holding one plain
resource (id 0) and one recording `CommandList` (id 1). -/
theorem destroy_bypasses_deletion_queue_witness :
    (destroyResource (run [Op.createResource, Op.createCmdList]) 0).chain =
      (run [Op.createResource, Op.createCmdList]).chain ∧
    (destroyResource (run [Op.createResource, Op.createCmdList]) 0).events =
      (run [Op.createResource, Op.createCmdList]).events ++ [Event.destroyedNow 0] ∧
    chainShape (destroyCmdList (run [Op.createResource, Op.createCmdList]) 1).chain =
      chainShape (run [Op.createResource, Op.createCmdList]).chain ∧
    (destroyCmdList (run [Op.createResource, Op.createCmdList]) 1).events =
      (run [Op.createResource, Op.createCmdList]).events ++ [Event.destroyedNow 1] :=
  destroy_bypasses_deletion_queue (run [Op.createResource, Op.createCmdList]) 0 1
    (by decide) ⟨⟨1, some 0, false⟩, by decide, rfl⟩ (by decide)

/-! ## C5: descriptor-handle round trip and the reserved index 0 -/

theorem countrOneAux_congr (fuel1 : Nat) :
    ∀ fuel2 n, n ≤ fuel1 → n ≤ fuel2 → countrOneAux fuel1 n = countrOneAux fuel2 n := by
  induction fuel1 using Nat.strong_induction_on with
  | _ fuel1 ih =>
    intro fuel2 n h1 h2
    cases fuel1 with
    | zero =>
      have hn : n = 0 := Nat.le_zero.mp h1
      subst hn
      cases fuel2 with
      | zero => rfl
      | succ f2 => simp [countrOneAux]
    | succ f1 =>
      cases fuel2 with
      | zero =>
        have hn : n = 0 := Nat.le_zero.mp h2
        subst hn
        simp [countrOneAux]
      | succ f2 =>
        by_cases h : n % 2 = 1
        · have hn : n ≠ 0 := by
            intro h0
            rw [h0] at h
            simp at h
          have hd : n / 2 ≤ f1 := by omega
          have hd2 : n / 2 ≤ f2 := by omega
          simp only [countrOneAux, if_pos h]
          rw [ih f1 (Nat.lt_succ_self f1) f2 (n / 2) hd hd2]
        · simp only [countrOneAux, if_neg h]

/-- The defining recursion of `countr_one`. -/
theorem countrOne_eq (n : Nat) :
    countrOne n = if n % 2 = 1 then countrOne (n / 2) + 1 else 0 := by
  by_cases h : n % 2 = 1
  · have hn : n ≠ 0 := by
      intro h0
      rw [h0] at h
      simp at h
    obtain ⟨m, hm⟩ : ∃ m, n = m + 1 := ⟨n - 1, by omega⟩
    subst hm
    rw [if_pos h]
    show countrOneAux (m + 1) (m + 1) = countrOneAux ((m + 1) / 2) ((m + 1) / 2) + 1
    simp only [countrOneAux, if_pos h]
    congr 1
    refine countrOneAux_congr m _ _ ?_ ?_ <;> omega
  · rw [if_neg h]
    cases n with
    | zero => rfl
    | succ m =>
      show countrOneAux (m + 1) (m + 1) = 0
      simp only [countrOneAux, if_neg h]

theorem countrOne_pos_of_odd (n : Nat) (h : n % 2 = 1) : 1 ≤ countrOne n := by
  rw [countrOne_eq, if_pos h]
  exact Nat.le_add_left 1 _

theorem two_pow_countrOne_le (n : Nat) : 2 ^ countrOne n ≤ n + 1 := by
  induction n using Nat.strong_induction_on with
  | _ n ih =>
    rw [countrOne_eq]
    by_cases h : n % 2 = 1
    · rw [if_pos h]
      have hn : n ≠ 0 := by
        intro h0
        rw [h0] at h
        simp at h
      have hlt : n / 2 < n := Nat.div_lt_self (Nat.pos_of_ne_zero hn) (by decide)
      have hih := ih (n / 2) hlt
      rw [pow_succ]
      generalize hx : 2 ^ countrOne (n / 2) = x at hih ⊢
      omega
    · rw [if_neg h]
      simp

theorem countrOne_lt_64 (w : Nat) (hw : w < 2 ^ 64) (hne : w ≠ wordAllOnes) :
    countrOne w < 64 := by
  by_contra hge
  push_neg at hge
  have h1 : (2 : Nat) ^ 64 ≤ 2 ^ countrOne w := Nat.pow_le_pow_right (by decide) hge
  have h2 := two_pow_countrOne_le w
  unfold wordAllOnes at hne
  have hpow : (2 : Nat) ^ 64 = 18446744073709551616 := by norm_num
  rw [hpow] at h1 hw hne
  generalize hx : 2 ^ countrOne w = x at h1 h2
  omega

theorem testBit_countrOne (n : Nat) : n.testBit (countrOne n) = false := by
  induction n using Nat.strong_induction_on with
  | _ n ih =>
    rw [countrOne_eq]
    by_cases h : n % 2 = 1
    · rw [if_pos h]
      have hn : n ≠ 0 := by
        intro h0
        rw [h0] at h
        simp at h
      have hlt : n / 2 < n := Nat.div_lt_self (Nat.pos_of_ne_zero hn) (by decide)
      rw [Nat.testBit_add_one]
      exact ih (n / 2) hlt
    · rw [if_neg h]
      have h0 : n % 2 = 0 := by omega
      simp [Nat.testBit_zero, h0]

/-- Setting the lowest zero bit and clearing it again restores the word. -/
theorem lor_clear_bit (w j : Nat) (hw : w < 2 ^ 64) (hj : j < 64)
    (hbit : w.testBit j = false) :
    (w ||| 2 ^ j) &&& (wordAllOnes ^^^ 2 ^ j) = w := by
  apply Nat.eq_of_testBit_eq
  intro k
  rw [Nat.testBit_land, Nat.testBit_lor, Nat.testBit_xor]
  unfold wordAllOnes
  rw [Nat.testBit_two_pow_sub_one]
  by_cases hk : k = j
  · subst hk
    simp [hbit, Nat.testBit_two_pow, hj]
  · have hjk : ¬ j = k := fun he => hk he.symm
    by_cases hk64 : k < 64
    · simp [Nat.testBit_two_pow, hjk, hk64]
    · have hkbit : w.testBit k = false := by
        refine Nat.testBit_lt_two_pow (lt_of_lt_of_le hw ?_)
        exact Nat.pow_le_pow_right (by decide) (by omega)
      simp [Nat.testBit_two_pow, hjk, hk64, hkbit]

/-- Characterization of a successful `Alloc` scan: the returned index is
`wi * 64 + countr_one(word)` for the probed non-full word `wi`, whose bit got
set, with the hint now pointing at `wi`. -/
theorem allocFrom_success_spec (a : HandleAllocator) (hlen : 0 < a.usedMap.length) :
    ∀ i fuel idx a2, allocFrom a i fuel = (some idx, a2) →
      ∃ wi, wi < a.usedMap.length ∧
        a.usedMap.getD wi 0 ≠ wordAllOnes ∧
        idx = wi * 64 + countrOne (a.usedMap.getD wi 0) ∧
        a2 = { nextFreeWordIdxHint := wi,
               usedMap := a.usedMap.set wi
                 ((a.usedMap.getD wi 0) ||| 2 ^ countrOne (a.usedMap.getD wi 0)) } := by
  intro i fuel
  induction fuel generalizing i with
  | zero =>
    intro idx a2 h
    simp [allocFrom] at h
  | succ fuel ih =>
    intro idx a2 h
    simp only [allocFrom] at h
    split at h
    case isTrue hne =>
      simp only [Prod.mk.injEq, Option.some.injEq] at h
      obtain ⟨h1, h2⟩ := h
      exact ⟨(i + a.nextFreeWordIdxHint) % a.usedMap.length,
        Nat.mod_lt _ hlen, hne, h1.symm, h2.symm⟩
    case isFalse hne => exact ih (i + 1) idx a2 h

/-- C5 (amended, image pool): with word 0's bit 0 set (slot 0 reserved, as
initialized) a successful `Alloc` never returns index 0; and `Alloc` followed
by `Free` of the returned index restores the word, so the next `Alloc`
returns the same index again. -/
theorem image_pool_alloc_never_zero_and_roundtrip (a : HandleAllocator) (idx : Nat)
    (a2 : HandleAllocator)
    (h0 : (a.usedMap.getD 0 0) % 2 = 1)
    (hw : ∀ w ∈ a.usedMap, w < 2 ^ 64)
    (hlen : 0 < a.usedMap.length)
    (halloc : a.alloc = (some idx, a2)) :
    idx ≠ 0 ∧ (HandleAllocator.alloc (a2.free idx)).1 = some idx := by
  obtain ⟨wi, hwi, hne, hidx, ha2⟩ :=
    allocFrom_success_spec a hlen 0 a.usedMap.length idx a2 halloc
  set w := a.usedMap.getD wi 0 with hwdef
  have hwmem : w ∈ a.usedMap := by
    rw [hwdef, List.getD_eq_getElem a.usedMap 0 hwi]
    exact List.getElem_mem hwi
  have hwlt : w < 2 ^ 64 := hw w hwmem
  have hj : countrOne w < 64 := countrOne_lt_64 w hwlt hne
  constructor
  · rcases Nat.eq_zero_or_pos wi with hwi0 | hwip
    · subst hwi0
      have : 1 ≤ countrOne w := countrOne_pos_of_odd w (by rw [hwdef]; exact h0)
      omega
    · omega
  · have hdiv : idx / 64 = wi := by omega
    have hmod : idx % 64 = countrOne w := by omega
    have hlen2 : (a2.free idx).usedMap.length = a.usedMap.length := by
      rw [ha2]
      simp [HandleAllocator.free]
    have hgetD2 : a2.usedMap.getD wi 0 = w ||| 2 ^ countrOne w := by
      rw [ha2]
      have hwi2 : wi < (a.usedMap.set wi (w ||| 2 ^ countrOne w)).length := by
        simpa using hwi
      simp [List.getD, List.getElem?_set_self, hwi]
    have hfree : (a2.free idx).usedMap = a.usedMap.set wi w := by
      unfold HandleAllocator.free
      rw [hdiv, hmod, hgetD2, ha2]
      simp only [List.set_set]
      rw [lor_clear_bit w (countrOne w) hwlt hj (testBit_countrOne w)]
    have hhint : (a2.free idx).nextFreeWordIdxHint = wi := by
      rw [ha2]
      rfl
    have hgetD3 : (a2.free idx).usedMap.getD wi 0 = w := by
      rw [hfree]
      simp [List.getD, List.getElem?_set_self, hwi]
    obtain ⟨f, hf⟩ : ∃ f, (a2.free idx).usedMap.length = f + 1 :=
      ⟨a.usedMap.length - 1, by omega⟩
    unfold HandleAllocator.alloc
    rw [hf]
    simp only [allocFrom, hhint, Nat.zero_add, hf]
    have hwimod : wi % (f + 1) = wi := Nat.mod_eq_of_lt (by omega)
    rw [hwimod, hgetD3, if_pos hne, hidx]

/-- Witness for `image_pool_alloc_never_zero_and_roundtrip` on a two-word
allocator in the initial configuration (word 0 = 1 reserving slot 0, hint 1):
the allocation yields index 64, freeing it and allocating again yields 64. -/
theorem image_pool_alloc_witness :
    64 ≠ 0 ∧
    (HandleAllocator.alloc
      ((HandleAllocator.alloc ⟨1, [1, 0]⟩).2.free 64)).1 = some 64 := by
  have h1 : (HandleAllocator.alloc ⟨1, [1, 0]⟩).1 = some 64 := by decide
  have halloc : HandleAllocator.alloc ⟨1, [1, 0]⟩ =
      (some 64, (HandleAllocator.alloc ⟨1, [1, 0]⟩).2) := by
    rw [← h1]
  exact image_pool_alloc_never_zero_and_roundtrip ⟨1, [1, 0]⟩ 64
    (HandleAllocator.alloc ⟨1, [1, 0]⟩).2 (by decide) (by decide) (by decide) halloc

/-- C5 counterexample (sampler pool): `_samplerMap` starts empty and handles
are handed out as `_samplerMap.size()`, so the very first `GetSampler` call on
a fresh heap returns handle index 0 — index 0 is not reserved in the
dynamic-sampler pool. -/
theorem sampler_pool_returns_index_zero :
    (getSampler [] ⟨⟨0, 0, 0, 0, 0, 0, 0, 0, 0, 0, 0, 0, 0, 0, 0, 0⟩, []⟩).1 = 0 := rfl

/-! ## C6 and C10: the sampler cache -/

theorem samplerMapWf_handle_lt (m : List SamplerMapEntry) (hwf : samplerMapWf m)
    (e : SamplerMapEntry) (he : e ∈ m) : e.handle < m.length := by
  have hmem : e.handle ∈ m.map SamplerMapEntry.handle := List.mem_map_of_mem _ he
  rw [hwf] at hmem
  exact List.mem_range.mp hmem

theorem samplerMapWf_inj (m : List SamplerMapEntry) (hwf : samplerMapWf m)
    (e1 e2 : SamplerMapEntry) (h1 : e1 ∈ m) (h2 : e2 ∈ m)
    (hh : e1.handle = e2.handle) : e1 = e2 := by
  have hnodup : (m.map SamplerMapEntry.handle).Nodup := by
    rw [hwf]
    exact List.nodup_range _
  exact List.inj_on_of_nodup_map hnodup h1 h2 hh

/-- Cache idempotence: a second lookup with the same compared bytes and the
same derived reduction mode returns the handle of the first call. -/
theorem getSampler_idem (m : List SamplerMapEntry) (d1 d2 : SamplerCreateInfo)
    (hf : d2.fields = d1.fields)
    (hrm : deriveReduceMode d2.pNext = deriveReduceMode d1.pNext) :
    (getSampler (getSampler m d1).2 d2).1 = (getSampler m d1).1 := by
  unfold getSampler
  rw [hf, hrm]
  cases hfind : m.find?
      (fun e => e.desc == d1.fields && e.reduceMode == deriveReduceMode d1.pNext) with
  | some e => simp [hfind]
  | none => simp [hfind, List.find?_append, List.find?]

/-- C6: the sampler cache is content-addressed on the compared bytes plus the
derived reduction mode: an identical description returns the same handle; a
description differing only in reduction mode returns a different handle; and
`GetSampler` only ever appends to `_samplerMap` — cached samplers are never
destroyed while the heap lives. -/
theorem getSampler_cache (m : List SamplerMapEntry) (d1 d2 d3 : SamplerCreateInfo)
    (hwf : samplerMapWf m)
    (hf2 : d2.fields = d1.fields)
    (hrm2 : deriveReduceMode d2.pNext = deriveReduceMode d1.pNext)
    (hf3 : d3.fields = d1.fields)
    (hrm3 : deriveReduceMode d3.pNext ≠ deriveReduceMode d1.pNext) :
    (getSampler (getSampler m d1).2 d2).1 = (getSampler m d1).1 ∧
    (getSampler (getSampler m d1).2 d3).1 ≠ (getSampler m d1).1 ∧
    ∃ tail, (getSampler m d1).2 = m ++ tail := by
  refine ⟨getSampler_idem m d1 d2 hf2 hrm2, ?_, ?_⟩
  · unfold getSampler
    rw [hf3]
    cases hfind1 : m.find?
        (fun e => e.desc == d1.fields && e.reduceMode == deriveReduceMode d1.pNext) with
    | some e1 =>
      have he1mem : e1 ∈ m := List.mem_of_find?_eq_some hfind1
      have he1p := List.find?_some hfind1
      simp only [Bool.and_eq_true, beq_iff_eq] at he1p
      simp only [hfind1]
      cases hfind3 : m.find?
          (fun e => e.desc == d1.fields && e.reduceMode == deriveReduceMode d3.pNext) with
      | some e3 =>
        have he3mem : e3 ∈ m := List.mem_of_find?_eq_some hfind3
        have he3p := List.find?_some hfind3
        simp only [Bool.and_eq_true, beq_iff_eq] at he3p
        simp only []
        intro hh
        have : e3 = e1 := samplerMapWf_inj m hwf e3 e1 he3mem he1mem hh
        rw [this] at he3p
        exact hrm3 (he3p.2.symm.trans he1p.2)
      | none =>
        simp only []
        have : e1.handle < m.length := samplerMapWf_handle_lt m hwf e1 he1mem
        omega
    | none =>
      simp only [hfind1]
      cases hfind3 : m.find?
          (fun e => e.desc == d1.fields && e.reduceMode == deriveReduceMode d3.pNext) with
      | some e3 =>
        have he3mem : e3 ∈ m := List.mem_of_find?_eq_some hfind3
        have hlt : e3.handle < m.length := samplerMapWf_handle_lt m hwf e3 he3mem
        have hcomb : (m ++ [(⟨d1.fields, deriveReduceMode d1.pNext, m.length⟩ :
            SamplerMapEntry)]).find?
            (fun e => e.desc == d1.fields && e.reduceMode == deriveReduceMode d3.pNext) =
            some e3 := by
          rw [List.find?_append, hfind3]
          rfl
        simp only [hcomb]
        omega
      | none =>
        have hne31 : deriveReduceMode d1.pNext ≠ deriveReduceMode d3.pNext :=
          fun he => hrm3 he.symm
        have hb : (deriveReduceMode d1.pNext == deriveReduceMode d3.pNext) = false := by
          simpa using hne31
        have hsingle : List.find?
            (fun e => e.desc == d1.fields && e.reduceMode == deriveReduceMode d3.pNext)
            [(⟨d1.fields, deriveReduceMode d1.pNext, m.length⟩ : SamplerMapEntry)] =
            none := by
          simp [List.find?, hb]
        have hcomb : (m ++ [(⟨d1.fields, deriveReduceMode d1.pNext, m.length⟩ :
            SamplerMapEntry)]).find?
            (fun e => e.desc == d1.fields && e.reduceMode == deriveReduceMode d3.pNext) =
            none := by
          rw [List.find?_append, hfind3]
          simpa using hsingle
        simp only [hcomb]
        simp
  · unfold getSampler
    cases hfind1 : m.find?
        (fun e => e.desc == d1.fields && e.reduceMode == deriveReduceMode d1.pNext) with
    | some e1 => exact ⟨[], by simp [hfind1]⟩
    | none =>
      exact ⟨[⟨d1.fields, deriveReduceMode d1.pNext, m.length⟩], by simp [hfind1]⟩

/-- Witness for `getSampler_cache` on the empty cache: an identical
description (with an extra unrecognized extension, which does not participate
in the key) hits the cache; a differing reduction mode misses it. -/
theorem getSampler_cache_witness :
    (getSampler
        (getSampler [] ⟨⟨0, 0, 0, 0, 0, 0, 0, 0, 0, 0, 0, 0, 0, 0, 0, 0⟩, []⟩).2
        ⟨⟨0, 0, 0, 0, 0, 0, 0, 0, 0, 0, 0, 0, 0, 0, 0, 0⟩, [SamplerExt.unsupported 5]⟩).1 =
      (getSampler [] ⟨⟨0, 0, 0, 0, 0, 0, 0, 0, 0, 0, 0, 0, 0, 0, 0, 0⟩, []⟩).1 ∧
    (getSampler
        (getSampler [] ⟨⟨0, 0, 0, 0, 0, 0, 0, 0, 0, 0, 0, 0, 0, 0, 0, 0⟩, []⟩).2
        ⟨⟨0, 0, 0, 0, 0, 0, 0, 0, 0, 0, 0, 0, 0, 0, 0, 0⟩, [SamplerExt.reductionMode 1]⟩).1 ≠
      (getSampler [] ⟨⟨0, 0, 0, 0, 0, 0, 0, 0, 0, 0, 0, 0, 0, 0, 0, 0⟩, []⟩).1 := by
  obtain ⟨a, b, _⟩ := getSampler_cache []
    ⟨⟨0, 0, 0, 0, 0, 0, 0, 0, 0, 0, 0, 0, 0, 0, 0, 0⟩, []⟩
    ⟨⟨0, 0, 0, 0, 0, 0, 0, 0, 0, 0, 0, 0, 0, 0, 0, 0⟩, [SamplerExt.unsupported 5]⟩
    ⟨⟨0, 0, 0, 0, 0, 0, 0, 0, 0, 0, 0, 0, 0, 0, 0, 0⟩, [SamplerExt.reductionMode 1]⟩
    rfl rfl rfl rfl (by decide)
  exact ⟨a, b⟩

/-- The derived reduction mode only depends on the recognized structures of
the chain: the scan leaves `reduceMode` unchanged on any other structure. -/
theorem deriveReduceMode_filter (exts : List SamplerExt) :
    deriveReduceMode exts = deriveReduceMode (supportedExtsOnly exts) := by
  unfold deriveReduceMode supportedExtsOnly
  generalize weightedAverage = acc
  induction exts generalizing acc with
  | nil => rfl
  | cons e rest ih =>
    cases e with
    | reductionMode mo =>
      simp only [List.filter_cons, List.foldl_cons]
      exact ih mo
    | unsupported st =>
      simp only [List.filter_cons, List.foldl_cons]
      exact ih acc

/-- C10: `GetSampler` silently ignores every structure on the `pNext` chain
other than the reduction-mode structure: the debug assertion in that branch
asserts a (non-null) string literal and can never fire, and unrecognized
structures do not participate in the cache key, so two descriptions that
differ only in unrecognized extension structures yield the same handle. -/
theorem getSampler_ignores_unsupported (m : List SamplerMapEntry)
    (d1 d2 : SamplerCreateInfo)
    (hf : d2.fields = d1.fields)
    (hexts : supportedExtsOnly d2.pNext = supportedExtsOnly d1.pNext) :
    unsupportedSamplerExtAssertCond = true ∧
    (getSampler (getSampler m d1).2 d2).1 = (getSampler m d1).1 := by
  refine ⟨rfl, ?_⟩
  have hrm : deriveReduceMode d2.pNext = deriveReduceMode d1.pNext := by
    rw [deriveReduceMode_filter d2.pNext, hexts, ← deriveReduceMode_filter]
  exact getSampler_idem m d1 d2 hf hrm

/-- Witness for `getSampler_ignores_unsupported`: a description carrying two
unrecognized extension structures returns the handle cached for the plain
description. -/
theorem getSampler_ignores_unsupported_witness :
    unsupportedSamplerExtAssertCond = true ∧
    (getSampler
        (getSampler [] ⟨⟨0, 0, 0, 0, 0, 0, 0, 0, 0, 0, 0, 0, 0, 0, 0, 0⟩, []⟩).2
        ⟨⟨0, 0, 0, 0, 0, 0, 0, 0, 0, 0, 0, 0, 0, 0, 0, 0⟩,
          [SamplerExt.unsupported 7, SamplerExt.unsupported 8]⟩).1 =
      (getSampler [] ⟨⟨0, 0, 0, 0, 0, 0, 0, 0, 0, 0, 0, 0, 0, 0, 0, 0⟩, []⟩).1 :=
  getSampler_ignores_unsupported []
    ⟨⟨0, 0, 0, 0, 0, 0, 0, 0, 0, 0, 0, 0, 0, 0, 0, 0⟩, []⟩
    ⟨⟨0, 0, 0, 0, 0, 0, 0, 0, 0, 0, 0, 0, 0, 0, 0, 0⟩,
      [SamplerExt.unsupported 7, SamplerExt.unsupported 8]⟩
    rfl rfl

/-! ## C8: acceleration-structure pool exhaustion as a result value -/

/-- C8: `Reserve` reports pool-storage exhaustion as the explicit
`VK_ERROR_OUT_OF_DEVICE_MEMORY` result value — the only non-success result on
this path, with no exception thrown — and `Build` propagates a non-success
`Reserve` result unchanged, recording no build command, so the caller can grow
or recreate pool storage and retry. -/
theorem accel_pool_exhaustion_result (p : AccelStructPool) (cmds : List RecordedCmd)
    (nodeIdx storageSize : Nat)
    (hfail : (reserve p nodeIdx storageSize).1 ≠ VkResult.success) :
    (reserve p nodeIdx storageSize).1 = VkResult.errorOutOfDeviceMemory ∧
    build p cmds nodeIdx storageSize =
      ((reserve p nodeIdx storageSize).1, (reserve p nodeIdx storageSize).2, cmds) := by
  rcases hres : reserve p nodeIdx storageSize with ⟨r, p1⟩
  cases r with
  | success =>
    rw [hres] at hfail
    simp at hfail
  | errorOutOfDeviceMemory =>
    refine ⟨rfl, ?_⟩
    unfold build
    rw [hres]

/-- Witness for `accel_pool_exhaustion_result`: a pool whose storage block has
capacity 0 cannot reserve a 1-byte node. -/
theorem accel_pool_exhaustion_result_witness :
    (reserve ⟨[], ⟨0, []⟩, 0⟩ 0 1).1 = VkResult.errorOutOfDeviceMemory ∧
    build ⟨[], ⟨0, []⟩, 0⟩ [] 0 1 =
      ((reserve ⟨[], ⟨0, []⟩, 0⟩ 0 1).1, (reserve ⟨[], ⟨0, []⟩, 0⟩ 0 1).2, []) :=
  accel_pool_exhaustion_result ⟨[], ⟨0, []⟩, 0⟩ [] 0 1 (by decide)

/-! ## C7: swapchain frame pacing -/

theorem countPresents_append (a b : List SwcEvent) :
    countPresents (a ++ b) = countPresents a + countPresents b := by
  simp [countPresents]

theorem swcInitialize_fields (s : SwcState) :
    (swcInitialize s).currFrameIdx = s.currFrameIdx ∧
    (swcInitialize s).events = s.events ∧
    (swcInitialize s).fences.length = framesInFlight ∧
    (swcInitialize s).initialized = true := by
  unfold swcInitialize
  refine ⟨rfl, rfl, ?_, rfl⟩
  simp

/-- Frame-slot bookkeeping invariant of the swapchain. -/
def swcInvProp (s : SwcState) : Prop :=
  s.currFrameIdx = countPresents s.events % framesInFlight ∧
  (s.initialized = true → s.fences.length = framesInFlight)

theorem acquireGo_inv (rs : List AcquireRes) :
    ∀ s : SwcState,
      (acquireGo s rs).currFrameIdx = s.currFrameIdx ∧
      countPresents (acquireGo s rs).events = countPresents s.events ∧
      ((s.initialized = true → s.fences.length = framesInFlight) →
        ((acquireGo s rs).initialized = true →
          (acquireGo s rs).fences.length = framesInFlight)) := by
  induction rs with
  | nil => intro s; exact ⟨rfl, rfl, fun h => h⟩
  | cons r rest ih =>
    intro s
    simp only [acquireGo]
    by_cases hc : (!s.initialized || s.invalid) = true
    · rw [if_pos hc]
      obtain ⟨hi1, hi2, hi3, hi4⟩ := swcInitialize_fields s
      by_cases hf : (swcInitialize s).fences.getD (swcInitialize s).currFrameIdx false = false
      · rw [if_pos hf]
        refine ⟨hi1, ?_, ?_⟩
        · rw [hi2, countPresents_append]
          rfl
        · intro _ _
          exact hi3
      · rw [if_neg hf]
        cases r with
        | success k =>
          refine ⟨hi1, ?_, ?_⟩
          · rw [hi2, countPresents_append]
            rfl
          · intro _ _
            exact hi3
        | suboptimal k =>
          obtain ⟨h1, h2, h3⟩ := ih { swcInitialize s with invalid := true, currImageIdx := k }
          refine ⟨by rw [h1, hi1], by rw [h2, hi2], ?_⟩
          intro _ hinit2
          exact h3 (fun _ => hi3) hinit2
        | outOfDate =>
          obtain ⟨h1, h2, h3⟩ := ih { swcInitialize s with invalid := true }
          refine ⟨by rw [h1, hi1], by rw [h2, hi2], ?_⟩
          intro _ hinit2
          exact h3 (fun _ => hi3) hinit2
    · rw [if_neg hc]
      by_cases hf : s.fences.getD s.currFrameIdx false = false
      · rw [if_pos hf]
        refine ⟨rfl, ?_, ?_⟩
        · rw [countPresents_append]
          rfl
        · intro h _
          have hi : s.initialized = true := by
            revert hc
            cases s.initialized <;> simp
          exact h hi
      · rw [if_neg hf]
        cases r with
        | success k =>
          refine ⟨rfl, ?_, ?_⟩
          · rw [countPresents_append]
            rfl
          · intro h _
            have hi : s.initialized = true := by
              revert hc
              cases s.initialized <;> simp
            exact h hi
        | suboptimal k =>
          obtain ⟨h1, h2, h3⟩ := ih { s with invalid := true, currImageIdx := k }
          refine ⟨h1, h2, ?_⟩
          intro h hinit2
          exact h3 (fun _ => h (by
            revert hc
            cases s.initialized <;> simp)) hinit2
        | outOfDate =>
          obtain ⟨h1, h2, h3⟩ := ih { s with invalid := true }
          refine ⟨h1, h2, ?_⟩
          intro h hinit2
          exact h3 (fun _ => h (by
            revert hc
            cases s.initialized <;> simp)) hinit2

theorem swcPresent_inv (s : SwcState) (r : PresentRes) (h : swcInvProp s) :
    swcInvProp (swcPresent s r) := by
  obtain ⟨h1, h2⟩ := h
  unfold swcPresent
  by_cases hi : s.initialized = true
  · rw [if_neg (by simp [hi])]
    have hlen : s.fences.length = framesInFlight := h2 hi
    cases r with
    | invalidating =>
      refine ⟨?_, fun _ => by simpa using hlen⟩
      simp only [countPresents_append, List.length_set]
      show (s.currFrameIdx + 1) % s.fences.length =
        (countPresents s.events + countPresents [SwcEvent.presented s.currImageIdx]) %
          framesInFlight
      rw [hlen, h1]
      have : countPresents [SwcEvent.presented s.currImageIdx] = 1 := rfl
      rw [this]
      show (countPresents s.events % framesInFlight + 1) % framesInFlight =
        (countPresents s.events + 1) % framesInFlight
      unfold framesInFlight
      omega
    | success =>
      refine ⟨?_, fun _ => by simpa using hlen⟩
      simp only [countPresents_append, List.length_set]
      show (s.currFrameIdx + 1) % s.fences.length =
        (countPresents s.events + countPresents [SwcEvent.presented s.currImageIdx]) %
          framesInFlight
      rw [hlen, h1]
      have : countPresents [SwcEvent.presented s.currImageIdx] = 1 := rfl
      rw [this]
      show (countPresents s.events % framesInFlight + 1) % framesInFlight =
        (countPresents s.events + 1) % framesInFlight
      unfold framesInFlight
      omega
  · rw [if_pos (by simpa using hi)]
    exact ⟨h1, h2⟩

theorem runSwc_inv (ops : List SwcOp) : swcInvProp (runSwc ops) := by
  have main : ∀ (l : List SwcOp) (s : SwcState), swcInvProp s → swcInvProp (l.foldl swcStep s) := by
    intro l
    induction l with
    | nil => intro s h; exact h
    | cons op rest ih =>
      intro s h
      refine ih (swcStep s op) ?_
      cases op with
      | acquire rs =>
        obtain ⟨h1, h2, h3⟩ := acquireGo_inv rs s
        refine ⟨?_, h3 h.2⟩
        show (acquireGo s rs).currFrameIdx =
          countPresents (acquireGo s rs).events % framesInFlight
        rw [h1, h2]
        exact h.1
      | present r => exact swcPresent_inv s r h
      | signalFence slot =>
        refine ⟨h.1, fun hi => ?_⟩
        show (signalFence s slot).fences.length = framesInFlight
        simp only [signalFence, List.length_set]
        exact h.2 hi
  exact main ops swcInit ⟨rfl, by intro h; simp [swcInit] at h⟩

theorem acquireGo_last_acquired (rs : List AcquireRes) :
    ∀ (s : SwcState) (delta : List SwcEvent) (slot k : Nat),
      (acquireGo s rs).events = s.events ++ delta →
      delta.getLast? = some (SwcEvent.acquired slot k) →
      (acquireGo s rs).currImageIdx = k := by
  induction rs with
  | nil =>
    intro s delta slot k he hl
    have h2 : s.events ++ delta = s.events ++ [] := by
      rw [List.append_nil]
      exact he.symm
    have hd : delta = [] := List.append_cancel_left h2
    rw [hd] at hl
    simp at hl
  | cons r rest ih =>
    intro s delta slot k he hl
    simp only [acquireGo] at he ⊢
    by_cases hc : (!s.initialized || s.invalid) = true
    all_goals obtain ⟨hi1, hi2, hi3, hi4⟩ := swcInitialize_fields s
    · rw [if_pos hc] at he ⊢
      by_cases hf : (swcInitialize s).fences.getD (swcInitialize s).currFrameIdx false = false
      · rw [if_pos hf] at he ⊢
        have he2 : (swcInitialize s).events ++
            [SwcEvent.blockedOnFence (swcInitialize s).currFrameIdx] =
            s.events ++ delta := he
        rw [hi2] at he2
        have hd : delta = [SwcEvent.blockedOnFence (swcInitialize s).currFrameIdx] :=
          (List.append_cancel_left he2).symm
        rw [hd] at hl
        simp at hl
      · rw [if_neg hf] at he ⊢
        cases r with
        | success k2 =>
          have he2 : (swcInitialize s).events ++
              [SwcEvent.acquired (swcInitialize s).currFrameIdx k2] =
              s.events ++ delta := he
          rw [hi2] at he2
          have hd : delta = [SwcEvent.acquired (swcInitialize s).currFrameIdx k2] :=
            (List.append_cancel_left he2).symm
          rw [hd] at hl
          simp at hl
          obtain ⟨hsl, hk⟩ := hl
          exact hk
        | suboptimal k2 =>
          have hse : ({ swcInitialize s with invalid := true, currImageIdx := k2 } :
              SwcState).events = s.events := hi2
          refine ih _ delta slot k ?_ hl
          rw [hse]
          exact he
        | outOfDate =>
          have hse : ({ swcInitialize s with invalid := true } :
              SwcState).events = s.events := hi2
          refine ih _ delta slot k ?_ hl
          rw [hse]
          exact he
    · rw [if_neg hc] at he ⊢
      by_cases hf : s.fences.getD s.currFrameIdx false = false
      · rw [if_pos hf] at he ⊢
        have he2 : s.events ++ [SwcEvent.blockedOnFence s.currFrameIdx] =
            s.events ++ delta := he
        have hd : delta = [SwcEvent.blockedOnFence s.currFrameIdx] :=
          (List.append_cancel_left he2).symm
        rw [hd] at hl
        simp at hl
      · rw [if_neg hf] at he ⊢
        cases r with
        | success k2 =>
          have he2 : s.events ++ [SwcEvent.acquired s.currFrameIdx k2] =
              s.events ++ delta := he
          have hd : delta = [SwcEvent.acquired s.currFrameIdx k2] :=
            (List.append_cancel_left he2).symm
          rw [hd] at hl
          simp at hl
          obtain ⟨hsl, hk⟩ := hl
          exact hk
        | suboptimal k2 => exact ih _ delta slot k he hl
        | outOfDate => exact ih _ delta slot k he hl

/-- C7: (i) every `Present` advances `_currFrameIdx` by exactly one modulo
`framesInFlight = 2` and nothing else modifies it, so over any history the
frame index equals the number of completed presents mod 2; (ii) when an
`AcquireImage` call completes by acquiring image `k`, `_currImageIdx` equals
`k` — whatever index the native acquire returned, independent of the frame
index; (iii) with both frame slots pending, a third `AcquireImage` blocks on
the slot's in-flight fence until the GPU signals it; (iv) frame index and
image index need not be in lockstep. -/
theorem swapchain_frame_pacing (ops : List SwcOp) (s : SwcState) (rs : List AcquireRes)
    (delta : List SwcEvent) (slot k : Nat)
    (he : (acquireGo s rs).events = s.events ++ delta)
    (hl : delta.getLast? = some (SwcEvent.acquired slot k)) :
    (runSwc ops).currFrameIdx = countPresents (runSwc ops).events % framesInFlight ∧
    (acquireGo s rs).currImageIdx = k ∧
    (runSwc [SwcOp.acquire [AcquireRes.success 0], SwcOp.present PresentRes.success,
      SwcOp.acquire [AcquireRes.success 1], SwcOp.present PresentRes.success,
      SwcOp.acquire [AcquireRes.success 0]]).events.getLast? =
        some (SwcEvent.blockedOnFence 0) ∧
    (runSwc [SwcOp.acquire [AcquireRes.success 0], SwcOp.present PresentRes.success,
      SwcOp.acquire [AcquireRes.success 1], SwcOp.present PresentRes.success,
      SwcOp.signalFence 0, SwcOp.acquire [AcquireRes.success 0]]).events.getLast? =
        some (SwcEvent.acquired 0 0) ∧
    (runSwc [SwcOp.acquire [AcquireRes.success 5],
      SwcOp.present PresentRes.success]).currFrameIdx = 1 ∧
    (runSwc [SwcOp.acquire [AcquireRes.success 5],
      SwcOp.present PresentRes.success]).currImageIdx = 5 :=
  ⟨(runSwc_inv ops).1, acquireGo_last_acquired rs s delta slot k he hl,
   by decide, by decide, by decide, by decide⟩

/-- Witness for `swapchain_frame_pacing`: a fresh swapchain acquiring image 3
on frame slot 0. -/
theorem swapchain_frame_pacing_witness :
    (runSwc []).currFrameIdx = countPresents (runSwc []).events % framesInFlight ∧
    (acquireGo swcInit [AcquireRes.success 3]).currImageIdx = 3 ∧
    (runSwc [SwcOp.acquire [AcquireRes.success 0], SwcOp.present PresentRes.success,
      SwcOp.acquire [AcquireRes.success 1], SwcOp.present PresentRes.success,
      SwcOp.acquire [AcquireRes.success 0]]).events.getLast? =
        some (SwcEvent.blockedOnFence 0) ∧
    (runSwc [SwcOp.acquire [AcquireRes.success 0], SwcOp.present PresentRes.success,
      SwcOp.acquire [AcquireRes.success 1], SwcOp.present PresentRes.success,
      SwcOp.signalFence 0, SwcOp.acquire [AcquireRes.success 0]]).events.getLast? =
        some (SwcEvent.acquired 0 0) ∧
    (runSwc [SwcOp.acquire [AcquireRes.success 5],
      SwcOp.present PresentRes.success]).currFrameIdx = 1 ∧
    (runSwc [SwcOp.acquire [AcquireRes.success 5],
      SwcOp.present PresentRes.success]).currImageIdx = 5 :=
  swapchain_frame_pacing [] swcInit [AcquireRes.success 3]
    [SwcEvent.acquired 0 3] 0 3 (by decide) (by decide)

end Havk
